import Mathlib

/-!
Surface: an SVG rendering of a 3-D surface function (src/main.go).

A shallow embedding of `src/main.go` and theorems about it.

* Go strings are byte sequences (`GoString`); `len`, slicing and `+` act on bytes.
* `uint8` values are naturals below 256 with an explicit `% 256` where Go wraps.
* `int` values are integers (the loops of `draw` never overflow).
* `float64` and the functions of the standard library that work on it are an
  interface (`Lib`): the program is written once, over every implementation.
* The functions `strconv.ParseUint`, `strconv.ParseInt` and `strconv.Atoi` of
  the Go standard library are modelled from their source.
-/

namespace Surface

/-! ## Strings -/

deriving instance DecidableEq for Except

/-- Go strings: immutable sequences of bytes. -/
abbrev GoString := List UInt8

/-- The bytes (UTF-8) of a string literal of the source. -/
def go (s : String) : GoString := s.toUTF8.data.toList

/-! ## strconv: integers -/

/-- The two error values of package strconv. -/
inductive ErrKind where
  | ErrSyntax
  | ErrRange
deriving DecidableEq, Repr

/-- The type `strconv.NumError`: the failing function, the input, the reason. -/
structure NumError where
  Func : GoString
  Num : GoString
  Err : ErrKind
deriving DecidableEq, Repr

/-- The helper `lower` of strconv: `c | ('x' - 'X')`. -/
def lower (c : UInt8) : Nat := c.toNat ||| 32

/-- The digit value of one byte in `ParseUint`'s loop, `none` for the
`default` branch (a byte that is no digit and no letter). -/
def digitVal (c : UInt8) : Option Nat :=
  if 48 ≤ c.toNat ∧ c.toNat ≤ 57 then some (c.toNat - 48)
  else if 97 ≤ lower c ∧ lower c ≤ 122 then some (lower c - 97 + 10)
  else none

/-- The loop of `strconv.ParseUint` over the bytes of the input, with the
accumulator `n` a `uint64`. -/
def parseUintLoop (s0 : GoString) (base maxVal cutoff : Nat) :
    List UInt8 → Nat → Nat × Option NumError
  | [], n => (n, none)
  | c :: cs, n =>
    match digitVal c with
    | none => (0, some ⟨go "ParseUint", s0, .ErrSyntax⟩)
    | some d =>
      if d ≥ base then (0, some ⟨go "ParseUint", s0, .ErrSyntax⟩)
      else if n ≥ cutoff then (maxVal, some ⟨go "ParseUint", s0, .ErrRange⟩)
      else
        let nb := n * base % 2 ^ 64
        let n1 := (nb + d) % 2 ^ 64
        if n1 < nb ∨ n1 > maxVal then (maxVal, some ⟨go "ParseUint", s0, .ErrRange⟩)
        else parseUintLoop s0 base maxVal cutoff cs n1

/-- The size of `int` in bits. -/
def IntSize : Nat := 64

/-- The function `strconv.ParseUint(s, base, bitSize)` for an explicit base,
2 ≤ base ≤ 36, and 0 ≤ bitSize ≤ 64 (the only kind of call the program and
`ParseInt` make: the prefix detection of base 0 is not reached). -/
def ParseUint (s : GoString) (base bitSize : Nat) : Nat × Option NumError :=
  if s = [] then (0, some ⟨go "ParseUint", s, .ErrSyntax⟩)
  else
    let bitSize := if bitSize = 0 then IntSize else bitSize
    let cutoff := (2 ^ 64 - 1) / base + 1
    let maxVal := 2 ^ bitSize - 1
    parseUintLoop s base maxVal cutoff s 0

/-- The function `strconv.ParseInt(s, base, bitSize)`, for an explicit base. -/
def ParseInt (s : GoString) (base bitSize : Nat) : Int × Option NumError :=
  match s with
  | [] => (0, some ⟨go "ParseInt", s, .ErrSyntax⟩)
  | c :: rest =>
    let neg := c = 45
    let body := if c = 43 ∨ c = 45 then rest else s
    let r := ParseUint body base bitSize
    match r.2 with
    | some ⟨_, _, .ErrSyntax⟩ => (0, some ⟨go "ParseInt", s, .ErrSyntax⟩)
    | _ =>
      let bitSize := if bitSize = 0 then IntSize else bitSize
      let cutoff := 2 ^ (bitSize - 1)
      if ¬ neg ∧ r.1 ≥ cutoff then ((cutoff : Int) - 1, some ⟨go "ParseInt", s, .ErrRange⟩)
      else if neg ∧ r.1 > cutoff then (-(cutoff : Int), some ⟨go "ParseInt", s, .ErrRange⟩)
      else (if neg then -(r.1 : Int) else (r.1 : Int), none)

/-- The function `strconv.Atoi`: `ParseInt(s, 10, 0)` with the error's function
name replaced (its fast path for short inputs computes the same result). -/
def Atoi (s : GoString) : Int × Option NumError :=
  let r := ParseInt s 10 0
  (r.1, r.2.map fun e => ⟨go "Atoi", e.Num, e.Err⟩)

/-! ## Colors -/

/-- The type `color.RGBA`: four `uint8` channels. -/
structure RGBA where
  R : Nat
  G : Nat
  B : Nat
  A : Nat
deriving DecidableEq, Repr

/-- Every channel is a `uint8`. -/
def RGBA.valid (c : RGBA) : Prop := c.R < 256 ∧ c.G < 256 ∧ c.B < 256 ∧ c.A < 256

instance (c : RGBA) : Decidable c.valid := by unfold RGBA.valid; infer_instance

/-- One lowercase hexadecimal digit, for a value below 16. -/
def hexDigit (d : Nat) : UInt8 := UInt8.ofNat (if d < 10 then 48 + d else 87 + d)

/-- The verb `%.2x` of fmt applied to a `uint8`: two lowercase hexadecimal digits. -/
def fmtx2 (n : Nat) : GoString := [hexDigit (n / 16 % 16), hexDigit (n % 16)]

/-- RGBAtoHEX converts RGBA color to HEX:
`fmt.Sprintf("#%.2x%.2x%.2x", c.R, c.G, c.B)`. -/
def RGBAtoHEX (c : RGBA) : GoString := go "#" ++ fmtx2 c.R ++ fmtx2 c.G ++ fmtx2 c.B

/-- The errors of `HEXtoRGBA`, one constructor per `fmt.Errorf` call, carrying
the arguments of the call. -/
inductive HexError where
  /-- The call `fmt.Errorf("bad hex %q", hex)` of the length switch. -/
  | badLen (hex : GoString)
  /-- The call `fmt.Errorf("bad hex %q: %v", hex, err)` after `ParseUint`. -/
  | badDigits (hex : GoString) (err : NumError)
deriving DecidableEq, Repr

/-- HEXtoRGBA converts HEX color to RGBA. -/
def HEXtoRGBA (hex : GoString) : Except HexError RGBA :=
  if hex.length ≠ 4 ∧ hex.length ≠ 7 then .error (.badLen hex)
  else
    -- cut # symbol
    let hex := hex.drop 1
    -- short notation handling
    let hex := if hex.length = 3 then hex ++ hex else hex
    let r := ParseUint hex 16 32
    match r.2 with
    | some err => .error (.badDigits hex err)
    | none =>
      let values := r.1
      .ok { R := (values >>> 16) % 256
            G := ((values >>> 8) &&& 0xFF) % 256
            B := (values &&& 0xFF) % 256
            A := 255 }

/-! ## float64 and the standard library -/

/-- The type `float64` (the carrier `F`) and the functions of the Go standard
library the program calls on it, as an interface. The program below is written
over every implementation of it. -/
structure Lib (F : Type) where
  /-- An untyped constant of the source converted to `float64`. -/
  ofRat : ℚ → F
  /-- The conversion `float64(n)` of an integer. -/
  ofInt : Int → F
  /-- The operator `+` on `float64`. -/
  add : F → F → F
  /-- The operator `-` on `float64`. -/
  sub : F → F → F
  /-- The operator `*` on `float64`. -/
  mul : F → F → F
  /-- The operator `/` on `float64`. -/
  div : F → F → F
  /-- The conversion `byte(x)` of a `float64` (only its value mod 256 is used). -/
  toUint8 : F → Nat
  /-- The call `math.IsInf(x, 0)`. -/
  IsInf : F → Bool
  /-- The function `math.IsNaN`. -/
  IsNaN : F → Bool
  /-- The function `math.NaN`. -/
  NaN : F
  /-- The function `math.Sin`. -/
  Sin : F → F
  /-- The function `math.Cos`. -/
  Cos : F → F
  /-- The function `math.Hypot`. -/
  Hypot : F → F → F
  /-- The function `math.Pow`. -/
  Pow : F → F → F
  /-- The call `strconv.ParseFloat(s, 64)`: the value and the error. -/
  ParseFloat : GoString → F × Option NumError
  /-- The verb `%g` of fmt. -/
  fmtG : F → GoString
  /-- The verb `%q` of fmt on a string (`strconv.Quote`). -/
  Quote : GoString → GoString

/-- The verb `%d` of fmt on an `int`. -/
def fmtD (n : Int) : GoString := go (toString n)

/-! ## The program: constants and prefs -/

/-- Canvas width in pixels. -/
def width : Int := 600
/-- Canvas height in pixels. -/
def height : Int := 320
/-- Number of grid cells. -/
def cells : Int := 100
/-- Axis ranges (-xyrange..+xyrange). -/
def xyrange : ℚ := 30
/-- Pixels per x or y unit: the constant expression `width / 2 / xyrange`. -/
def xyscale : ℚ := ((width / 2 : Int) : ℚ) / xyrange
/-- Pixels per z unit: the constant expression `height * 0.4`. -/
def zscale : ℚ := (height : ℚ) * (4 / 10)
/-- The constant `math.Pi`. -/
def Pi : ℚ := 314159265358979323846264338327950288419716939937510582097494459 / 10 ^ 62
/-- Angle of x, y axes (=30°): `math.Pi / 6`. -/
def angle : ℚ := Pi / 6

section Program

variable {F : Type} (M : Lib F)

/-- The package variable `sin30 = math.Sin(angle)`. -/
def sin30 : F := M.Sin (M.ofRat angle)
/-- The package variable `cos30 = math.Cos(angle)`. -/
def cos30 : F := M.Cos (M.ofRat angle)

/-- The package variable `red`. -/
def red : RGBA := ⟨255, 0, 0, 255⟩
/-- The package variable `blue`. -/
def blue : RGBA := ⟨0, 0, 255, 255⟩

/-- The struct `prefs`. -/
structure prefs (F : Type) where
  width : Int
  height : Int
  cells : Int
  xyrange : F
  _xyscale : F
  _zscale : F
  lowest : RGBA
  highest : RGBA
  f : F → F → F

/-- The surface `f1` (schaffer). -/
def f1 (x y : F) : F :=
  let r := M.Hypot x y
  M.Sin r

/-- The surface `f2` (eggbox). -/
def f2 (x y : F) : F :=
  M.div (M.mul (M.Pow (M.ofRat 2) (M.Sin x)) (M.Pow (M.ofRat 2) (M.Sin y))) (M.ofRat 12)

/-- The surface `f3` (sinc). -/
def f3 (x y : F) : F :=
  let r := M.Hypot x y
  M.div (M.Sin r) r

/-- The surface `f4` (moguls). -/
def f4 (x y : F) : F :=
  M.div (M.Sin (M.div (M.mul x y) (M.ofRat 10))) (M.ofRat 10)

/-- The surface `f5` (saddle). -/
def f5 (x y : F) : F :=
  let r := M.sub (M.mul x x) (M.mul y y)
  r

/-! ## The program: gradient, corner, draw -/

/-- The function `avg`: the sum, from the zero value, divided by the count. -/
def avg (nums : List F) : F :=
  let total := nums.foldl M.add (M.ofRat 0)
  M.div total (M.ofInt nums.length)

/-- The function `prop`: `f/2 + 0.5`. -/
def prop (f : F) : F := M.add (M.div f (M.ofRat 2)) (M.ofRat (1 / 2))

/-- The operator `-` on two `uint8` values: it wraps. -/
def sub8 (a b : Nat) : Nat := (a + 256 - b) % 256

/-- The operator `+` on two `uint8` values: it wraps. -/
def add8 (a b : Nat) : Nat := (a + b) % 256

/-- The conversion `byte(x)` of a `float64`. -/
def byte (x : F) : Nat := M.toUint8 x % 256

/-- The function `gradient`. -/
def gradient (color1 color2 : RGBA) (percent : F) : RGBA :=
  let r := add8 color1.R (byte M (M.mul percent (M.ofInt (sub8 color2.R color1.R))))
  let g := add8 color1.G (byte M (M.mul percent (M.ofInt (sub8 color2.G color1.G))))
  let b := add8 color1.B (byte M (M.mul percent (M.ofInt (sub8 color2.B color1.B))))
  let a := add8 color1.B (byte M (M.mul percent (M.ofInt (sub8 color2.A color1.A))))
  ⟨r, g, b, a⟩

/-- The function `corner`: the canvas point and height at corner (i,j), and
whether the height is finite. -/
def corner (i j : Int) (p : prefs F) : F × F × F × Bool :=
  -- Find point (x,y) at corner of cell (i,j).
  let x := M.mul p.xyrange (M.sub (M.div (M.ofInt i) (M.ofInt p.cells)) (M.ofRat (1 / 2)))
  let y := M.mul p.xyrange (M.sub (M.div (M.ofInt j) (M.ofInt p.cells)) (M.ofRat (1 / 2)))
  -- Compute surface height z.
  let z := p.f x y
  if M.IsInf z || M.IsNaN z then (M.NaN, M.NaN, M.NaN, false)
  else
    -- Project (x,y,z) isometrically onto 2-D SVG canvas (sx,sy).
    let sx := M.add (M.div (M.ofInt p.width) (M.ofRat 2))
      (M.mul (M.mul (M.sub x y) (cos30 M)) p._xyscale)
    let sy := M.sub
      (M.add (M.div (M.ofInt p.height) (M.ofRat 2))
        (M.mul (M.mul (M.add x y) (sin30 M)) p._xyscale))
      (M.mul z p._zscale)
    (sx, sy, z, true)

/-- The body of the inner loop of `draw` at cell (i,j): the polygon record it
writes, `none` when it reaches `continue`. -/
def polygon (p : prefs F) (i j : Int) : Option GoString :=
  let c1 := corner M (i + 1) j p
  let c2 := corner M i j p
  let c3 := corner M i (j + 1) p
  let c4 := corner M (i + 1) (j + 1) p
  if !c1.2.2.2 || !c2.2.2.2 || !c3.2.2.2 || !c4.2.2.2 then none
  else
    let filler := gradient M p.lowest p.highest
      (prop M (avg M [c1.2.2.1, c2.2.2.1, c3.2.2.1, c4.2.2.1]))
    some (go "<polygon points=\x27" ++ M.fmtG c1.1 ++ go "," ++ M.fmtG c1.2.1 ++ go " "
      ++ M.fmtG c2.1 ++ go "," ++ M.fmtG c2.2.1 ++ go " "
      ++ M.fmtG c3.1 ++ go "," ++ M.fmtG c3.2.1 ++ go " "
      ++ M.fmtG c4.1 ++ go "," ++ M.fmtG c4.2.1
      ++ go "\x27 fill=\x27" ++ RGBAtoHEX filler ++ go "\x27/>\n")

/-- The polygon records `draw` writes, in order: the two nested loops. -/
def polygons (p : prefs F) : List GoString :=
  (List.range p.cells.toNat).flatMap fun (i : Nat) =>
    (List.range p.cells.toNat).filterMap fun (j : Nat) => polygon M p (i : Int) (j : Int)

/-- The first write of `draw`: the opening tag. -/
def svgOpen (p : prefs F) : GoString :=
  go "<svg xmlns=\x27http://www.w3.org/2000/svg\x27 " ++
  go "style=\x27stroke: none; fill: none; stroke-width: 0.7\x27 " ++
  go "width=\x27" ++ fmtD p.width ++ go "\x27 height=\x27" ++ fmtD p.height ++ go "\x27>"

/-- The function `draw`: the sequence of writes to `w`, one per `Fprintf`. -/
def draw (p : prefs F) : List GoString :=
  [svgOpen p] ++ polygons M p ++ [go "</svg>"]

/-! ## The program: getPrefs -/

/-- The errors of `getPrefs`, one constructor per `fmt.Errorf` call, carrying
the arguments of the call. -/
inductive PrefsError where
  /-- The call `fmt.Errorf("no value for parameter %q", k)`. -/
  | noValue (k : GoString)
  /-- The call `fmt.Errorf("parameter %q value should be an integer", k)`. -/
  | notInteger (k : GoString)
  /-- The call `fmt.Errorf("parameter %q value should be a float", k)`. -/
  | notFloat (k : GoString)
  /-- The call `fmt.Errorf("parameter %q value error: %v", k, errc)`. -/
  | valueError (k : GoString) (errc : HexError)
  /-- The call `fmt.Errorf("parameter %q value should be one of ...", k, ...)`. -/
  | badFunc (k : GoString)
  /-- The call `fmt.Errorf("wrong parameter %q", k)`. -/
  | wrongParam (k : GoString)
deriving DecidableEq, Repr

/-- The key an error of `getPrefs` was raised at: the argument `k` of its
`fmt.Errorf` call. -/
def PrefsError.key : PrefsError → GoString
  | .noValue k => k
  | .notInteger k => k
  | .notFloat k => k
  | .valueError k _ => k
  | .badFunc k => k
  | .wrongParam k => k

/-- The method `Error` of `strconv.NumError`. -/
def NumError.Error (e : NumError) : GoString :=
  go "strconv." ++ e.Func ++ go ": parsing " ++ M.Quote e.Num ++ go ": " ++
    (match e.Err with
     | .ErrSyntax => go "invalid syntax"
     | .ErrRange => go "value out of range")

/-- The message of an error of `HEXtoRGBA`. -/
def HexError.Error : HexError → GoString
  | .badLen hex => go "bad hex " ++ M.Quote hex
  | .badDigits hex err => go "bad hex " ++ M.Quote hex ++ go ": " ++ err.Error M

/-- The message of an error of `getPrefs`. -/
def PrefsError.Error : PrefsError → GoString
  | .noValue k => go "no value for parameter " ++ M.Quote k
  | .notInteger k => go "parameter " ++ M.Quote k ++ go " value should be an integer"
  | .notFloat k => go "parameter " ++ M.Quote k ++ go " value should be a float"
  | .valueError k errc => go "parameter " ++ M.Quote k ++ go " value error: " ++ errc.Error M
  | .badFunc k => go "parameter " ++ M.Quote k ++ go " value should be one of " ++
      M.Quote (go "schaffer") ++ go ", " ++ M.Quote (go "eggbox") ++ go ", " ++
      M.Quote (go "sinc") ++ go ", " ++ M.Quote (go "moguls") ++ go ", " ++
      M.Quote (go "saddle")
  | .wrongParam k => go "wrong parameter " ++ M.Quote k

/-- The request form `r.Form` (a `map[string][]string`) as the `range` loop
sees it: its entries in the order of one iteration, each key once. -/
abbrev Form := List (GoString × List GoString)

/-- How one iteration of a loop body ends. -/
inductive Flow (α : Type) where
  /-- The body ran to its end: the loop goes on. -/
  | next (a : α)
  /-- The body executed `return`. -/
  | ret (a : α)

/-- The named results `(p, err)` of `getPrefs`. -/
abbrev Results (F : Type) := prefs F × Option PrefsError

/-- The body of the `range` loop of `getPrefs` at entry `(k, v)`, on the
current values of the named results `p` and `err`. -/
def getPrefsBody (k : GoString) (v : List GoString) (s : Results F) : Flow (Results F) :=
  let p := s.1
  let err := s.2
  match v with
  | [] => .ret (p, some (.noValue k))
  | val :: _ =>
    if k = go "width" then
      let r := Atoi val
      let p := { p with width := r.1 }
      match r.2 with
      | some _ => .ret (p, some (.notInteger k))
      | none => .next (p, none)
    else if k = go "height" then
      let r := Atoi val
      let p := { p with height := r.1 }
      match r.2 with
      | some _ => .ret (p, some (.notInteger k))
      | none => .next (p, none)
    else if k = go "cells" then
      let r := Atoi val
      let p := { p with cells := r.1 }
      match r.2 with
      | some _ => .ret (p, some (.notInteger k))
      | none => .next (p, none)
    else if k = go "xyrange" then
      let r := M.ParseFloat val
      let p := { p with xyrange := r.1 }
      match r.2 with
      | some _ => .ret (p, some (.notFloat k))
      | none => .next (p, none)
    else if k = go "lowest" then
      match HEXtoRGBA val with
      | .error errc => .ret (p, some (.valueError k errc))
      | .ok lc => .next ({ p with lowest := lc }, err)
    else if k = go "highest" then
      match HEXtoRGBA val with
      | .error errc => .ret (p, some (.valueError k errc))
      | .ok hc => .next ({ p with highest := hc }, err)
    else if k = go "func" then
      if val = go "f1" ∨ val = go "schaffer" then .next ({ p with f := f1 M }, err)
      else if val = go "f2" ∨ val = go "eggbox" then .next ({ p with f := f2 M }, err)
      else if val = go "f3" ∨ val = go "sinc" then .next ({ p with f := f3 M }, err)
      else if val = go "f4" ∨ val = go "moguls" then .next ({ p with f := f4 M }, err)
      else if val = go "f5" ∨ val = go "saddle" then .next ({ p with f := f5 M }, err)
      else .next (p, some (.badFunc k))
    else if k = go "background" then .next (p, err) -- it is fine, just skip it
    else .ret (p, some (.wrongParam k))

/-- The `range` loop of `getPrefs` over the entries of the form. -/
def getPrefsLoop : Form → Results F → Flow (Results F)
  | [], s => .next s
  | (k, v) :: rest, s =>
    match getPrefsBody M k v s with
    | .ret s1 => .ret s1
    | .next s1 => getPrefsLoop rest s1

/-- The values `getPrefs` starts from. -/
def defaults : prefs F :=
  { width := width, height := height, cells := cells
    xyrange := M.ofRat xyrange, _xyscale := M.ofRat xyscale, _zscale := M.ofRat zscale
    lowest := blue, highest := red
    f := f1 M }

/-- The function `getPrefs`, on the form of the request: the named results
`(p, err)` at its `return`. -/
def getPrefs (form : Form) : Results F :=
  match getPrefsLoop M form (defaults M, none) with
  | .ret s => s
  | .next (p, err) =>
    let p := { p with _xyscale := M.div (M.div (M.ofInt p.width) (M.ofRat 2)) p.xyrange }
    let p := { p with _zscale := M.mul (M.ofInt p.height) (M.ofRat (4 / 10)) }
    (p, err)

/-! ## The program: handler -/

/-- What `handler` reads of the request: the result of
`r.ParseMultipartForm(32 << 20)` (the message of its error, if any) and the
form it leaves in `r.Form`. -/
structure Request where
  parseErr : Option GoString
  Form : Form

/-- What `handler` does to the `http.ResponseWriter`: the status code, the
headers set, the writes. -/
structure Response where
  status : Nat
  header : List (GoString × GoString)
  body : List GoString
deriving DecidableEq, Repr

/-- The constant `http.StatusOK`. -/
def StatusOK : Nat := 200
/-- The constant `http.StatusBadRequest`. -/
def StatusBadRequest : Nat := 400
/-- The constant `http.StatusInternalServerError`. -/
def StatusInternalServerError : Nat := 500

/-- The function `http.Error`: plain-text headers, the status code, the
message and a newline. -/
def httpError (error : GoString) (code : Nat) : Response :=
  { status := code
    header := [(go "Content-Type", go "text/plain; charset=utf-8"),
               (go "X-Content-Type-Options", go "nosniff")]
    body := [error ++ go "\n"] }

/-- The function `handler`. A handler that writes without calling
`WriteHeader` answers with `http.StatusOK`. -/
def handler (r : Request) : Response :=
  match r.parseErr with
  | some e => httpError e StatusBadRequest
  | none =>
    match getPrefs M r.Form with
    | (_, some err) => httpError (err.Error M) StatusInternalServerError
    | (p, none) =>
      { status := StatusOK
        header := [(go "Content-Type", go "image/svg+xml")]
        body := draw M p }

end Program

/-! ## Vocabulary of the statements -/

section Vocabulary

variable {F : Type} (M : Lib F)

/-- A height is finite: neither NaN nor an infinity. -/
def finite (z : F) : Prop := M.IsInf z = false ∧ M.IsNaN z = false

instance (z : F) : Decidable (finite M z) := by unfold finite; infer_instance

/-- The domain coordinate of grid index `i`: `xyrange * (i/cells - 0.5)`. -/
def coord (p : prefs F) (i : Int) : F :=
  M.mul p.xyrange (M.sub (M.div (M.ofInt i) (M.ofInt p.cells)) (M.ofRat (1 / 2)))

/-- The surface function of `p` is finite at grid vertex (i,j). -/
def finiteAt (p : prefs F) (i j : Int) : Prop := finite M (p.f (coord M p i) (coord M p j))

instance (p : prefs F) (i j : Int) : Decidable (finiteAt M p i j) := by
  unfold finiteAt; infer_instance

/-- The surface function of `p` is finite at the four vertices of cell (i,j). -/
def cellFinite (p : prefs F) (i j : Int) : Prop :=
  finiteAt M p i j ∧ finiteAt M p (i + 1) j ∧ finiteAt M p i (j + 1) ∧ finiteAt M p (i + 1) (j + 1)

instance (p : prefs F) (i j : Int) : Decidable (cellFinite M p i j) := by
  unfold cellFinite; infer_instance

/-- The cells (i,j) with 0 ≤ i, j < n, row by row. -/
def grid (n : Nat) : List (Nat × Nat) :=
  (List.range n).flatMap fun i => (List.range n).map fun j => (i, j)

/-- The cells of the grid of `p` that touch at least one vertex where the
surface function is not finite. -/
def invalidCells (p : prefs F) : List (Nat × Nat) :=
  (grid p.cells.toNat).filter fun c => ¬ cellFinite M p c.1 c.2

/-- The case labels of the switch on the key in `getPrefs`. -/
def caseKeys : List GoString :=
  [go "width", go "height", go "cells", go "xyrange", go "lowest", go "highest", go "func",
    go "background"]

/-- The first value of key `k` in a form, if the form has the key with a value. -/
def firstValue : Form → GoString → Option GoString
  | [], _ => none
  | (k1, v) :: rest, k => if k1 = k then v.head? else firstValue rest k

/-- The integer `strconv.Atoi` reads from the value of key `k`, or `d` when
the form has no such key. -/
def intParam (form : Form) (k : GoString) (d : Int) : Int :=
  match firstValue form k with
  | some val => (Atoi val).1
  | none => d

/-- The `float64` that `strconv.ParseFloat` reads from the value of key `k`,
or `d` when the form has no such key. -/
def floatParam (form : Form) (k : GoString) (d : F) : F :=
  match firstValue form k with
  | some val => (M.ParseFloat val).1
  | none => d

/-- Whether a byte is a hexadecimal digit (0-9, a-f, A-F). -/
def isHexDigit (b : UInt8) : Prop :=
  (48 ≤ b.toNat ∧ b.toNat ≤ 57) ∨ (97 ≤ b.toNat ∧ b.toNat ≤ 102) ∨ (65 ≤ b.toNat ∧ b.toNat ≤ 70)

instance (b : UInt8) : Decidable (isHexDigit b) := by unfold isHexDigit; infer_instance

end Vocabulary

/-! ## A reference implementation of the interface -/

/-- The values of IEEE 754 binary64: NaN, the infinities, the signed zeros
and the nonzero finite values (as rationals). -/
inductive F64 where
  | nan
  | inf (neg : Bool)
  | zero (neg : Bool)
  | fin (q : ℚ)
deriving DecidableEq

namespace F64

/-- The power of two of an integer exponent. -/
def pow2 (e : Int) : ℚ :=
  if 0 ≤ e then ((2 ^ e.toNat : Nat) : ℚ) else 1 / ((2 ^ (-e).toNat : Nat) : ℚ)

/-- The position of the highest set bit of `n`, found by halving the range
of candidate positions `k` times (for `n` below `2 ^ 2 ^ k`). -/
def log2Aux : Nat → Nat → Nat → Nat
  | 0, _, acc => acc
  | k + 1, n, acc =>
    if n >>> (2 ^ k) ≠ 0 then log2Aux k (n >>> (2 ^ k)) (acc + 2 ^ k) else log2Aux k n acc

/-- The first `k` from the given one on with `n` below `2 ^ 2 ^ k`, searched
for at most the given number of steps. -/
def levels (n : Nat) : Nat → Nat → Nat
  | 0, k => k
  | f + 1, k => if n >>> (2 ^ k) = 0 then k else levels n f (k + 1)

/-- The largest `e` with `2 ^ e ≤ n`, for a positive `n`. -/
def log2 (n : Nat) : Nat := log2Aux (levels n n 0) n 0

/-- The largest `e` with `2 ^ e ≤ q`, for a positive `q`. -/
def ilog2 (q : ℚ) : Int :=
  let e0 : Int := (log2 q.num.natAbs : Int) - (log2 q.den : Int)
  if pow2 e0 ≤ q then e0 else e0 - 1

/-- Rounding of a real (here rational) value to binary64: to nearest, ties to
even, with gradual underflow and overflow to infinity. -/
def rnd (q : ℚ) : F64 :=
  if q = 0 then zero false
  else
    let a := |q|
    let e := max (ilog2 a) (-1022)
    let ulp := pow2 (e - 52)
    let n := a / ulp
    let f : Int := n.num / n.den
    let r := n - f
    let m : Int :=
      if r < 1 / 2 then f else if 1 / 2 < r then f + 1 else if f % 2 = 0 then f else f + 1
    let v := (m : ℚ) * ulp
    if pow2 1024 ≤ v then inf (decide (q < 0))
    else if v = 0 then zero (decide (q < 0))
    else fin (if q < 0 then -v else v)

/-- The sign bit. -/
def sign : F64 → Bool
  | nan => false
  | inf s => s
  | zero s => s
  | fin q => decide (q < 0)

/-- Negation. -/
def neg : F64 → F64
  | nan => nan
  | inf s => inf (!s)
  | zero s => zero (!s)
  | fin q => fin (-q)

/-- Addition. -/
def add : F64 → F64 → F64
  | nan, _ => nan
  | _, nan => nan
  | inf s, inf t => if s = t then inf s else nan
  | inf s, _ => inf s
  | _, inf t => inf t
  | zero s, zero t => zero (s && t)
  | zero _, fin b => fin b
  | fin a, zero _ => fin a
  | fin a, fin b => rnd (a + b)

/-- Subtraction. -/
def sub (x y : F64) : F64 := add x (neg y)

/-- Multiplication. -/
def mul : F64 → F64 → F64
  | nan, _ => nan
  | _, nan => nan
  | inf _, zero _ => nan
  | zero _, inf _ => nan
  | inf s, y => inf (xor s y.sign)
  | x, inf t => inf (xor x.sign t)
  | zero s, y => zero (xor s y.sign)
  | x, zero t => zero (xor x.sign t)
  | fin a, fin b => rnd (a * b)

/-- Division. -/
def div : F64 → F64 → F64
  | nan, _ => nan
  | _, nan => nan
  | inf _, inf _ => nan
  | zero _, zero _ => nan
  | inf s, y => inf (xor s y.sign)
  | x, inf t => zero (xor x.sign t)
  | zero s, y => zero (xor s y.sign)
  | x, zero t => inf (xor x.sign t)
  | fin a, fin b => rnd (a / b)


/-- The value of a finite binary64 as a rational (zero for the others). -/
def toRat : F64 → ℚ
  | fin q => q
  | _ => 0

/-- Truncation toward zero. -/
def trunc (q : ℚ) : Int := Int.tdiv q.num q.den

/-- The conversion `byte(x)`: truncation toward zero, then the low eight bits
(as compiled for amd64, where a value outside the range of `int32` gives 0). -/
def toUint8 : F64 → Nat
  | fin q => if -(2 : Int) ^ 31 ≤ trunc q ∧ trunc q < 2 ^ 31 then (trunc q % 256).toNat else 0
  | _ => 0

/-- The sum of the first terms of a series whose term `n + 1` is the term
`n` times `step n`. -/
def series (step : Nat → ℚ) : Nat → Nat → ℚ → ℚ → ℚ
  | 0, _, _, acc => acc
  | k + 1, n, term, acc => series step k (n + 1) (term * step n) (acc + term)

/-- The nearest integer to a rational. -/
def nearest (q : ℚ) : Int := (q + 1 / 2).num / (q + 1 / 2).den

/-- The sine: reduction by a multiple of 2π, then the Taylor series to
degree 59. -/
def sinQ (x : ℚ) : ℚ :=
  let r := x - (nearest (x / (2 * Pi)) : ℚ) * (2 * Pi)
  series (fun n => -(r * r) / ((2 * n + 2) * (2 * n + 3))) 30 0 r 0

/-- The cosine: reduction by a multiple of 2π, then the Taylor series to
degree 58. -/
def cosQ (x : ℚ) : ℚ :=
  let r := x - (nearest (x / (2 * Pi)) : ℚ) * (2 * Pi)
  series (fun n => -(r * r) / ((2 * n + 1) * (2 * n + 2))) 30 0 1 0

/-- Newton's iteration for the integer square root, from a guess above it. -/
def isqrtAux (n : Nat) : Nat → Nat → Nat
  | 0, x => x
  | k + 1, x => let y := (x + n / x) / 2; if y < x then isqrtAux n k y else x

/-- The integer square root. -/
def isqrt (n : Nat) : Nat := if n = 0 then 0 else isqrtAux n (2 * log2 (log2 n + 2) + 8) (2 ^ (log2 n / 2 + 1))

/-- The square root of a nonnegative rational, to 200 bits after the point
of its scaled numerator. -/
def sqrtQ (q : ℚ) : ℚ :=
  (isqrt (q.num.toNat * q.den * 4 ^ 200) : ℚ) / ((q.den * 2 ^ 200 : Nat) : ℚ)

/-- The constant ln 2, to 60 digits. -/
def Ln2 : ℚ := 693147180559945309417232121458176568075500134360255254120680 / 10 ^ 60

/-- The natural logarithm of a positive rational: the exponent times ln 2
plus the series of the inverse hyperbolic tangent. -/
def lnQ (a : ℚ) : ℚ :=
  let e := ilog2 a
  let t := (a / pow2 e - 1) / (a / pow2 e + 1)
  (e : ℚ) * Ln2 + 2 * series (fun n => t * t * (2 * n + 1) / (2 * n + 3)) 60 0 t 0

/-- The exponential: reduction by a multiple of ln 2, then the Taylor series. -/
def expQ (z : ℚ) : ℚ :=
  let k := nearest (z / Ln2)
  let r := z - (k : ℚ) * Ln2
  pow2 k * series (fun n => r / (n + 1)) 40 0 1 0

/-- The function `math.Sin`. -/
def Sin : F64 → F64
  | fin q => rnd (sinQ q)
  | zero s => zero s
  | _ => nan

/-- The function `math.Cos`. -/
def Cos : F64 → F64
  | fin q => rnd (cosQ q)
  | zero _ => fin 1
  | _ => nan

/-- The function `math.Hypot`. -/
def Hypot : F64 → F64 → F64
  | inf _, _ => inf false
  | _, inf _ => inf false
  | nan, _ => nan
  | _, nan => nan
  | x, y => rnd (sqrtQ (x.toRat * x.toRat + y.toRat * y.toRat))

/-- Whether a value is an odd integer. -/
def isOddInt : F64 → Bool
  | fin q => decide (q.den = 1 ∧ q.num % 2 = 1)
  | _ => false

/-- Whether a value is an integer. -/
def isInt : F64 → Bool
  | fin q => decide (q.den = 1)
  | zero _ => true
  | _ => false

/-- The power of a nonzero rational to a nonzero finite exponent: exact for
an integer exponent, the exponential of the logarithm otherwise. -/
def powQ (a y : ℚ) : ℚ :=
  if y.den = 1 then (if 0 ≤ y.num then a ^ y.num.toNat else 1 / a ^ (-y.num).toNat)
  else expQ (y * lnQ a)

/-- The function `math.Pow`, with the special cases of its documentation. -/
def Pow (x y : F64) : F64 :=
  match x, y with
  | _, zero _ => fin 1
  | nan, _ => nan
  | _, nan => nan
  | zero _, inf t => if t then inf false else zero false
  | zero s, fin q =>
    if q < 0 then (if isOddInt (fin q) then inf s else inf false)
    else (if isOddInt (fin q) then zero s else zero false)
  | inf _, inf t => if t then zero false else inf false
  | inf s, fin q =>
    if q < 0 then (if s && isOddInt (fin q) then zero true else zero false)
    else (if s && isOddInt (fin q) then inf true else inf false)
  | fin a, inf t =>
    if a = 1 ∨ a = -1 then fin 1
    else if (1 < |a|) = (t = false) then inf false else zero false
  | fin a, fin q =>
    if a = 1 then fin 1
    else if a < 0 ∧ q.den ≠ 1 then nan
    else
      let v := rnd (powQ |a| q)
      if a < 0 ∧ isOddInt (fin q) then neg v else v


/-- The power of ten of an integer exponent. -/
def pow10 (e : Int) : ℚ :=
  if 0 ≤ e then ((10 ^ e.toNat : Nat) : ℚ) else 1 / ((10 ^ (-e).toNat : Nat) : ℚ)

/-- The run of decimal digits a string starts with: their value, their
count, the rest of the string. -/
def readDigits : List UInt8 → Nat → Nat → Nat × Nat × List UInt8
  | [], v, n => (v, n, [])
  | c :: cs, v, n =>
    if 48 ≤ c.toNat ∧ c.toNat ≤ 57 then readDigits cs (v * 10 + (c.toNat - 48)) (n + 1)
    else (v, n, c :: cs)

/-- A string in lower case (ASCII letters only). -/
def lowerStr (s : GoString) : GoString :=
  s.map fun c => if 65 ≤ c.toNat ∧ c.toNat ≤ 90 then UInt8.ofNat (c.toNat + 32) else c

/-- The exponent part of a decimal literal: empty, or `e`, a sign and digits. -/
def readExp (s : List UInt8) : Option Int :=
  match s with
  | [] => some 0
  | c :: cs =>
    if c = 101 ∨ c = 69 then
      let neg := cs.head? = some 45
      let body := if cs.head? = some 45 ∨ cs.head? = some 43 then cs.drop 1 else cs
      let r := readDigits body 0 0
      if r.2.1 = 0 ∨ r.2.2 ≠ [] then none
      else some (if neg then -(r.1 : Int) else (r.1 : Int))
    else none

/-- The function `strconv.ParseFloat(s, 64)` on the decimal forms
`[+-]digits[.digits][e[+-]digits]`, `[+-]inf`, `[+-]infinity` and `nan`,
correctly rounded. The other forms the library reads (hexadecimal mantissas,
underscores between digits) are syntax errors here. -/
def ParseFloat (s : GoString) : F64 × Option NumError :=
  let neg := s.head? = some 45
  let body := if s.head? = some 45 ∨ s.head? = some 43 then s.drop 1 else s
  if lowerStr body = go "inf" ∨ lowerStr body = go "infinity" then (inf neg, none)
  else if lowerStr s = go "nan" then (nan, none)
  else
    let i := readDigits body 0 0
    let afterDot := if i.2.2.head? = some 46 then i.2.2.drop 1 else i.2.2
    let f := if i.2.2.head? = some 46 then readDigits afterDot i.1 0 else (i.1, 0, afterDot)
    match readExp f.2.2 with
    | none => (zero false, some ⟨go "ParseFloat", s, .ErrSyntax⟩)
    | some e =>
      if i.2.1 + f.2.1 = 0 then (zero false, some ⟨go "ParseFloat", s, .ErrSyntax⟩)
      else
        let v := rnd ((f.1 : ℚ) * pow10 (e - f.2.1))
        match v with
        | inf _ => (inf neg, some ⟨go "ParseFloat", s, .ErrRange⟩)
        | zero _ => (zero neg, none)
        | _ => (if neg then F64.neg v else v, none)

/-- The largest `x` with `10 ^ x ≤ q`, for a positive `q`. -/
def ilog10 (q : ℚ) : Int :=
  let x0 : Int := ilog2 q * 30103 / 100000
  if pow10 (x0 + 1) ≤ q then x0 + 1 else x0

/-- The nearest integer to a nonnegative rational, ties to even. -/
def nearestEven (n : ℚ) : Nat :=
  let f := (n.num / n.den).toNat
  let r := n - f
  if r < 1 / 2 then f else if 1 / 2 < r then f + 1 else if f % 2 = 0 then f else f + 1

/-- The decimal with `nd` significant digits nearest to a positive `a`: its
digits as a number and the exponent of its first digit. -/
def decimal (a : ℚ) (nd : Nat) : Nat × Int :=
  let x := ilog10 a
  let d := nearestEven (a / pow10 (x - nd + 1))
  if d = 10 ^ nd then (10 ^ (nd - 1), x + 1) else (d, x)

/-- The shortest decimal that rounds back to the positive value `a`: the
search from `nd` digits on, at most `k` steps. -/
def shortest (a : ℚ) : Nat → Nat → Nat × Nat × Int
  | 0, nd => (nd, decimal a nd)
  | k + 1, nd =>
    let d := decimal a nd
    if rnd ((d.1 : ℚ) * pow10 (d.2 - nd + 1)) = fin a then (nd, d) else shortest a k (nd + 1)

/-- The exponent of the `%e` form: a sign and at least two digits. -/
def fmtExp (x : Int) : GoString :=
  (if x < 0 then go "-" else go "+") ++
    (if x.natAbs < 10 then go "0" else []) ++ go (toString x.natAbs)

/-- The verb `%g` on a positive value: the shortest decimal that rounds
back to it, in the `%e` form when its exponent is below -4 or at least 6. -/
def fmtPos (a : ℚ) : GoString :=
  let s := shortest a 16 1
  let nd := s.1
  let ds := go (toString s.2.1)
  let x := s.2.2
  if x < -4 ∨ 6 ≤ x then
    ds.take 1 ++ (if 1 < nd then go "." ++ ds.drop 1 else []) ++ go "e" ++ fmtExp x
  else if x < 0 then
    go "0." ++ List.replicate (-x - 1).toNat 48 ++ ds
  else
    ds.take (x.toNat + 1) ++ List.replicate (x.toNat + 1 - nd) 48 ++
      (if x.toNat + 1 < nd then go "." ++ ds.drop (x.toNat + 1) else [])

/-- The verb `%g` of fmt on a `float64`. -/
def fmtG : F64 → GoString
  | nan => go "NaN"
  | inf s => if s then go "-Inf" else go "+Inf"
  | zero s => if s then go "-0" else go "0"
  | fin q => (if q < 0 then go "-" else []) ++ fmtPos |q|

/-- The function `strconv.Quote` on one byte: printable ASCII as it is, the
quote and the backslash escaped, control characters by their escapes. Bytes
from 0x80 on are kept (they are taken for parts of printable characters). -/
def quoteByte (c : UInt8) : GoString :=
  if c = 34 then go "\\\""
  else if c = 92 then go "\\\\"
  else if c = 7 then go "\\a"
  else if c = 8 then go "\\b"
  else if c = 12 then go "\\f"
  else if c = 10 then go "\\n"
  else if c = 13 then go "\\r"
  else if c = 9 then go "\\t"
  else if c = 11 then go "\\v"
  else if c.toNat < 32 ∨ c = 127 then go "\\x" ++ fmtx2 c.toNat
  else [c]

/-- The function `strconv.Quote`. -/
def Quote (s : GoString) : GoString := go "\"" ++ s.flatMap quoteByte ++ go "\""

/-- Rounding of a nonnegative rational to the nearest integer, ties to even:
the integer `m` of `rnd`. -/
def rhe (n : ℚ) : Int :=
  let f : Int := n.num / n.den
  let r := n - f
  if r < 1 / 2 then f else if 1 / 2 < r then f + 1 else if f % 2 = 0 then f else f + 1

/-- The exponent `e` of `rnd` for a positive value: that of its binade, or
-1022 for the subnormal values. -/
def expo (a : ℚ) : Int := max (ilog2 a) (-1022)

/-- The magnitude `v` of `rnd` for a positive value: a multiple of the unit
in the last place. -/
def rmag (a : ℚ) : ℚ := (rhe (a / pow2 (expo a - 52)) : ℚ) * pow2 (expo a - 52)

/-- The rounding of a nonnegative rational as a rational: its magnitude, or
zero at zero. -/
def rval (x : ℚ) : ℚ := if x ≤ 0 then 0 else rmag x

/-- The operator `<=` of Go on two `float64` values. -/
def le : F64 → F64 → Prop
  | nan, _ => False
  | _, nan => False
  | inf s, inf t => s = true ∨ t = false
  | inf s, _ => s = true
  | _, inf t => t = false
  | x, y => x.toRat ≤ y.toRat

/-- A value is zero or a nonzero finite number. -/
def isFinite : F64 → Prop
  | zero _ => True
  | fin _ => True
  | _ => False

/-- A value is zero or a nonzero finite number of magnitude at most `k`. -/
def bounded (k : Nat) : F64 → Prop
  | zero _ => True
  | fin q => |q| ≤ (k : ℚ)
  | _ => False

instance (k : Nat) (x : F64) : Decidable (bounded k x) := by
  cases x <;> unfold bounded <;> infer_instance

end F64

/-- The interface implemented with IEEE 754 binary64 arithmetic: every
operation rounds the exact result to nearest, ties to even. It serves to run
the program on concrete inputs. -/
def Binary64 : Lib F64 where
  ofRat := F64.rnd
  ofInt := fun n => F64.rnd n
  add := F64.add
  sub := F64.sub
  mul := F64.mul
  div := F64.div
  toUint8 := F64.toUint8
  IsInf := fun x => match x with
    | .inf _ => true
    | _ => false
  IsNaN := fun x => match x with
    | .nan => true
    | _ => false
  NaN := .nan
  Sin := F64.Sin
  Cos := F64.Cos
  Hypot := F64.Hypot
  Pow := F64.Pow
  ParseFloat := F64.ParseFloat
  fmtG := F64.fmtG
  Quote := F64.Quote

/-- The configuration width=600, height=320, cells=100, xyrange=30.0,
func=f5 with the default colors, as a request form. -/
def saddleForm : Form :=
  [(go "width", [go "600"]), (go "height", [go "320"]), (go "cells", [go "100"]),
    (go "xyrange", [go "30.0"]), (go "func", [go "f5"])]

/-- The prefs of that configuration. -/
def saddle : prefs F64 := { defaults Binary64 with f := f5 Binary64 }

/-- The default prefs with the surface `f3` (sinc). -/
def sinc : prefs F64 := { defaults Binary64 with f := f3 Binary64 }

set_option maxRecDepth 100000

/-! ## Theorems: the color codec -/

theorem digitVal_hexDigit (d : Nat) (h : d < 16) : digitVal (hexDigit d) = some d := by
  have key : ∀ d, d < 16 → digitVal (hexDigit d) = some d := by decide
  exact key d h

theorem parseUintLoop_hexDigit (s0 : GoString) (d n : Nat) (cs : List UInt8)
    (hd : d < 16) (hn : n * 16 + d < 2 ^ 32) :
    parseUintLoop s0 16 (2 ^ 32 - 1) ((2 ^ 64 - 1) / 16 + 1) (hexDigit d :: cs) n
      = parseUintLoop s0 16 (2 ^ 32 - 1) ((2 ^ 64 - 1) / 16 + 1) cs (n * 16 + d) := by
  rw [parseUintLoop, digitVal_hexDigit d hd]
  have h1 : ¬ (d ≥ 16) := by omega
  have h2 : ¬ (n ≥ (2 ^ 64 - 1) / 16 + 1) := by norm_num at hn ⊢; omega
  have h3 : n * 16 % 2 ^ 64 = n * 16 := Nat.mod_eq_of_lt (by norm_num at hn ⊢; omega)
  have h4 : (n * 16 + d) % 2 ^ 64 = n * 16 + d := Nat.mod_eq_of_lt (by norm_num at hn ⊢; omega)
  simp only [h1, h2, h3, h4, if_false]
  have h5 : ¬ (n * 16 + d < n * 16 ∨ n * 16 + d > 2 ^ 32 - 1) := by norm_num at hn ⊢; omega
  simp only [h5, if_false]

/-- Claim C3: for every RGBA color `c` with `c.A = 255`, `HEXtoRGBA(RGBAtoHEX(c))`
succeeds and returns exactly `c`. -/
theorem C3_HEXtoRGBA_RGBAtoHEX (c : RGBA) (hc : c.valid) (hA : c.A = 255) :
    HEXtoRGBA (RGBAtoHEX c) = .ok c := by
  obtain ⟨r, g, b, a⟩ := c
  obtain ⟨hr, hg, hb, -⟩ := hc
  simp only at hr hg hb hA
  subst hA
  have hgo : go "#" = [35] := by decide
  have hstr : RGBAtoHEX ⟨r, g, b, 255⟩
      = 35 :: [hexDigit (r / 16 % 16), hexDigit (r % 16), hexDigit (g / 16 % 16),
          hexDigit (g % 16), hexDigit (b / 16 % 16), hexDigit (b % 16)] := by
    simp [RGBAtoHEX, fmtx2, hgo]
  have hparse : ParseUint [hexDigit (r / 16 % 16), hexDigit (r % 16), hexDigit (g / 16 % 16),
      hexDigit (g % 16), hexDigit (b / 16 % 16), hexDigit (b % 16)] 16 32
        = (r * 65536 + g * 256 + b, none) := by
    simp only [ParseUint, if_neg (List.cons_ne_nil _ _), show ¬ (32 = 0) by decide, if_false]
    rw [parseUintLoop_hexDigit _ _ _ _ (by omega) (by norm_num; omega),
      parseUintLoop_hexDigit _ _ _ _ (by omega) (by norm_num; omega),
      parseUintLoop_hexDigit _ _ _ _ (by omega) (by norm_num; omega),
      parseUintLoop_hexDigit _ _ _ _ (by omega) (by norm_num; omega),
      parseUintLoop_hexDigit _ _ _ _ (by omega) (by norm_num; omega),
      parseUintLoop_hexDigit _ _ _ _ (by omega) (by norm_num; omega)]
    simp only [parseUintLoop]
    congr 1
    omega
  rw [hstr]
  have hne : ¬ ((7 : Nat) ≠ 4 ∧ (7 : Nat) ≠ 7) := by decide
  have hne3 : ¬ ((6 : Nat) = 3) := by decide
  simp only [HEXtoRGBA, List.length_cons, List.length_nil, List.drop_succ_cons, List.drop_zero,
    Nat.zero_add, Nat.reduceAdd, hne, hne3, if_false]
  have e1 : (r * 65536 + g * 256 + b) >>> 16 % 256 = r := by
    rw [Nat.shiftRight_eq_div_pow]; norm_num; omega
  have e2 : ((r * 65536 + g * 256 + b) >>> 8 &&& 0xFF) % 256 = g := by
    rw [Nat.shiftRight_eq_div_pow, show (0xFF : Nat) = 2 ^ 8 - 1 by norm_num,
      Nat.and_pow_two_sub_one_eq_mod]; norm_num; omega
  have e3 : ((r * 65536 + g * 256 + b) &&& 0xFF) % 256 = b := by
    rw [show (0xFF : Nat) = 2 ^ 8 - 1 by norm_num, Nat.and_pow_two_sub_one_eq_mod]
    norm_num; omega
  rw [hparse]
  simp only [e1, e2, e3]

/-- Witness of C3 at the color `red`. -/
theorem C3_witness :
    red.valid ∧ red.A = 255 ∧ HEXtoRGBA (RGBAtoHEX red) = .ok red :=
  ⟨by decide, rfl, C3_HEXtoRGBA_RGBAtoHEX red (by decide) rfl⟩

/-- Claim C2, at the input the claim names: `HEXtoRGBA("#f00")` succeeds but
reads the digits of `f00f00` (the three digits repeated as a block, not each
digit doubled), so it returns (240, 15, 0, 255), while `HEXtoRGBA("#ff0000")`
returns (255, 0, 0, 255). -/
theorem C2_short_form_f00 :
    HEXtoRGBA (go "#f00") = .ok ⟨240, 15, 0, 255⟩ ∧
    HEXtoRGBA (go "#ff0000") = .ok ⟨255, 0, 0, 255⟩ ∧
    HEXtoRGBA (go "#f00") ≠ HEXtoRGBA (go "#ff0000") := by
  decide

/-- Claim C4, at a string of length 4 whose first character is not `#`:
`HEXtoRGBA("x000")` succeeds (the first byte is cut without being looked at),
and so does the string "1234567" of length 7. -/
theorem C4_first_byte_unchecked :
    HEXtoRGBA (go "x000") = .ok ⟨0, 0, 0, 255⟩ ∧
    HEXtoRGBA (go "1234567") = .ok ⟨0x23, 0x45, 0x67, 255⟩ := by
  decide

/-! ## Theorems: gradient -/

section GradientTheorems

variable {F : Type} (M : Lib F)

theorem sub8_cast (a b : Nat) (ha : a < 256) (hb : b < 256) :
    ((sub8 a b : Nat) : Int) = if b ≤ a then (a : Int) - b else (a : Int) - b + 256 := by
  unfold sub8
  split <;> omega

/-- Counterexample to C5 as stated, at low.R = 200, high.R = 100, t = 0.5:
the red channel of `gradient` is 22 (the difference 100 - 200 is taken in
`uint8` arithmetic and is 156; 200 + 78 wraps to 22), while the formula of the
claim, with the signed difference -100, gives 150. -/
theorem C5_counterexample :
    (gradient Binary64 ⟨200, 0, 0, 255⟩ ⟨100, 0, 0, 255⟩ (.fin (1 / 2))).R = 22 ∧
    ((200 : Int) + ⌊(1 / 2 : ℚ) * (((100 : Int) - (200 : Int) : Int) : ℚ)⌋) % 256 = 150 := by
  constructor
  · decide!
  · norm_num

/-- Claim C5, amended: for all endpoint colors `low` and `high` and every `t`,
each of the R, G and B channels of `gradient(low, high, t)` equals
`(low.ch + byte(t * float64(d))) mod 256`, where `d` is the difference
`high.ch - low.ch` taken in `uint8` arithmetic: the signed difference when
`low.ch ≤ high.ch`, and the signed difference plus 256 (never a negative
number) when `high.ch < low.ch`. -/
theorem C5_gradient_channels (low high : RGBA) (t : F) (hl : low.valid) (hh : high.valid) :
    (gradient M low high t).R
      = (low.R + byte M (M.mul t (M.ofInt
          (if low.R ≤ high.R then (high.R : Int) - low.R else (high.R : Int) - low.R + 256))))
        % 256 ∧
    (gradient M low high t).G
      = (low.G + byte M (M.mul t (M.ofInt
          (if low.G ≤ high.G then (high.G : Int) - low.G else (high.G : Int) - low.G + 256))))
        % 256 ∧
    (gradient M low high t).B
      = (low.B + byte M (M.mul t (M.ofInt
          (if low.B ≤ high.B then (high.B : Int) - low.B else (high.B : Int) - low.B + 256))))
        % 256 := by
  obtain ⟨hlR, hlG, hlB, -⟩ := hl
  obtain ⟨hhR, hhG, hhB, -⟩ := hh
  simp only [gradient, add8]
  rw [sub8_cast _ _ hhR hlR, sub8_cast _ _ hhG hlG, sub8_cast _ _ hhB hlB]
  exact ⟨rfl, rfl, rfl⟩

/-- Witness of C5 (amended) at the package colors `blue` and `red`. -/
theorem C5_witness :
    blue.valid ∧ red.valid ∧
    (gradient Binary64 blue red (.fin (1 / 2))).B
      = (blue.B + byte Binary64 (Binary64.mul (.fin (1 / 2)) (Binary64.ofInt
          (if blue.B ≤ red.B then (red.B : Int) - blue.B else (red.B : Int) - blue.B + 256))))
        % 256 :=
  ⟨by decide, by decide,
    (C5_gradient_channels Binary64 blue red (.fin (1 / 2)) (by decide) (by decide)).2.2⟩

end GradientTheorems

/-! ## Theorems: draw -/

section DrawTheorems

variable {F : Type} (M : Lib F)

theorem corner_ok (p : prefs F) (i j : Int) :
    (corner M i j p).2.2.2 = true ↔ finiteAt M p i j := by
  unfold corner finiteAt finite coord
  dsimp only
  generalize p.f (M.mul p.xyrange _) (M.mul p.xyrange _) = z
  cases hinf : M.IsInf z <;> cases hnan : M.IsNaN z <;> simp

theorem polygon_isSome (p : prefs F) (i j : Int) :
    (polygon M p i j).isSome = true ↔ cellFinite M p i j := by
  unfold cellFinite
  rw [← corner_ok M p (i + 1) j, ← corner_ok M p i j, ← corner_ok M p i (j + 1),
    ← corner_ok M p (i + 1) (j + 1)]
  unfold polygon
  dsimp only
  generalize corner M (i + 1) j p = c1
  generalize corner M i j p = c2
  generalize corner M i (j + 1) p = c3
  generalize corner M (i + 1) (j + 1) p = c4
  obtain ⟨-, -, -, b1⟩ := c1
  obtain ⟨-, -, -, b2⟩ := c2
  obtain ⟨-, -, -, b3⟩ := c3
  obtain ⟨-, -, -, b4⟩ := c4
  cases b1 <;> cases b2 <;> cases b3 <;> cases b4 <;> simp

theorem filterMap_grid {α : Type} (g : Nat → Nat → Option α) (l r : List Nat) :
    (l.flatMap fun i => r.filterMap fun j => g i j)
      = (l.flatMap fun i => r.map fun j => (i, j)).filterMap fun c => g c.1 c.2 := by
  induction l with
  | nil => rfl
  | cons a l ih =>
    simp only [List.flatMap_cons, List.filterMap_append, List.filterMap_map, ih]
    rfl

theorem polygons_eq_filterMap (p : prefs F) :
    polygons M p = (grid p.cells.toNat).filterMap fun c => polygon M p c.1 c.2 := by
  unfold polygons grid
  exact filterMap_grid (fun i j => polygon M p i j) _ _

theorem length_filterMap_add {α β : Type} (g : α → Option β) (l : List α) :
    (l.filterMap g).length + (l.filter fun a => (g a).isNone).length = l.length := by
  induction l with
  | nil => rfl
  | cons a l ih =>
    cases h : g a <;> simp [List.filterMap_cons, List.filter_cons, h] <;> omega

theorem length_grid (n : Nat) : (grid n).length = n * n := by
  unfold grid
  have key : ∀ l : List Nat,
      (l.flatMap fun i => (List.range n).map fun j => (i, j)).length = l.length * n := by
    intro l
    induction l with
    | nil => simp
    | cons a l ih => simp [List.flatMap_cons, ih, Nat.succ_mul, Nat.add_comm]
  rw [key, List.length_range]

theorem mem_grid (n i j : Nat) : (i, j) ∈ grid n ↔ i < n ∧ j < n := by
  unfold grid
  simp [List.mem_flatMap]

theorem invalidCells_eq (p : prefs F) :
    invalidCells M p
      = (grid p.cells.toNat).filter fun c => (polygon M p c.1 c.2).isNone := by
  unfold invalidCells
  apply List.filter_congr
  intro c _
  have h := polygon_isSome M p c.1 c.2
  by_cases hc : cellFinite M p c.1 c.2
  · have : (polygon M p c.1 c.2).isSome = true := h.mpr hc
    cases hp : polygon M p c.1 c.2 <;> simp_all
  · have : ¬ (polygon M p c.1 c.2).isSome = true := fun hs => hc (h.mp hs)
    cases hp : polygon M p c.1 c.2 <;> simp_all

/-- Claim C1: for every prefs with `cells ≥ 0` and every surface function,
`draw` writes the opening tag, the polygon records and the closing tag; the
loop body writes a record for cell (i,j) if and only if the surface function
is finite at the four vertices (i,j), (i+1,j), (i,j+1), (i+1,j+1); the records
are those of the cells of the grid, in order, that pass this test; so their
number is `cells²` minus the number of cells that touch a vertex where the
function is not finite, and is at most `cells²`. -/
theorem C1_draw_polygons (p : prefs F) (hcells : 0 ≤ p.cells) :
    draw M p = [svgOpen p] ++ polygons M p ++ [go "</svg>"] ∧
    (∀ i j : Int, (polygon M p i j).isSome = true ↔ cellFinite M p i j) ∧
    polygons M p = (grid p.cells.toNat).filterMap (fun c => polygon M p c.1 c.2) ∧
    (∀ i j : Nat, (i, j) ∈ grid p.cells.toNat ↔ (i : Int) < p.cells ∧ (j : Int) < p.cells) ∧
    ((polygons M p).length : Int) = p.cells ^ 2 - (invalidCells M p).length ∧
    ((polygons M p).length : Int) ≤ p.cells ^ 2 := by
  have hlen := length_filterMap_add (fun c : Nat × Nat => polygon M p c.1 c.2) (grid p.cells.toNat)
  rw [← polygons_eq_filterMap, ← invalidCells_eq, length_grid] at hlen
  have hn : ((p.cells.toNat : Nat) : Int) = p.cells := Int.toNat_of_nonneg hcells
  have hsq : p.cells ^ 2 = ((p.cells.toNat * p.cells.toNat : Nat) : Int) := by
    rw [Nat.cast_mul, hn]; ring
  refine ⟨rfl, polygon_isSome M p, polygons_eq_filterMap M p, ?_, ?_, ?_⟩
  · intro i j
    rw [mem_grid]
    omega
  · rw [hsq]; omega
  · rw [hsq]; omega

/-- Witness of C1 at the default prefs (100 cells, surface `f1`). -/
theorem C1_witness :
    (0 : Int) ≤ (defaults Binary64).cells ∧
    ((polygons Binary64 (defaults Binary64)).length : Int)
      = (defaults Binary64).cells ^ 2 - (invalidCells Binary64 (defaults Binary64)).length :=
  ⟨by decide, (C1_draw_polygons Binary64 (defaults Binary64) (by decide)).2.2.2.2.1⟩

end DrawTheorems

/-! ## Theorems: getPrefs -/

section GetPrefsTheorems

variable {F : Type} (M : Lib F)

theorem body_nil (k : GoString) (s : Results F) :
    getPrefsBody M k [] s = .ret (s.1, some (.noValue k)) := rfl

theorem body_width (val : GoString) (vs : List GoString) (s : Results F) :
    getPrefsBody M (go "width") (val :: vs) s =
      if (Atoi val).2 = none then .next ({ s.1 with width := (Atoi val).1 }, none)
      else .ret ({ s.1 with width := (Atoi val).1 }, some (.notInteger (go "width"))) := by
  unfold getPrefsBody
  dsimp only
  rw [if_pos rfl]
  cases (Atoi val).2 <;> rfl

theorem body_height (val : GoString) (vs : List GoString) (s : Results F) :
    getPrefsBody M (go "height") (val :: vs) s =
      if (Atoi val).2 = none then .next ({ s.1 with height := (Atoi val).1 }, none)
      else .ret ({ s.1 with height := (Atoi val).1 }, some (.notInteger (go "height"))) := by
  unfold getPrefsBody
  dsimp only
  rw [if_neg (by decide), if_pos rfl]
  cases (Atoi val).2 <;> rfl

theorem body_cells (val : GoString) (vs : List GoString) (s : Results F) :
    getPrefsBody M (go "cells") (val :: vs) s =
      if (Atoi val).2 = none then .next ({ s.1 with cells := (Atoi val).1 }, none)
      else .ret ({ s.1 with cells := (Atoi val).1 }, some (.notInteger (go "cells"))) := by
  unfold getPrefsBody
  dsimp only
  rw [if_neg (by decide), if_neg (by decide), if_pos rfl]
  cases (Atoi val).2 <;> rfl

theorem body_xyrange (val : GoString) (vs : List GoString) (s : Results F) :
    getPrefsBody M (go "xyrange") (val :: vs) s =
      if (M.ParseFloat val).2 = none then
        .next ({ s.1 with xyrange := (M.ParseFloat val).1 }, none)
      else .ret ({ s.1 with xyrange := (M.ParseFloat val).1 }, some (.notFloat (go "xyrange"))) := by
  unfold getPrefsBody
  dsimp only
  rw [if_neg (by decide), if_neg (by decide), if_neg (by decide), if_pos rfl]
  cases (M.ParseFloat val).2 <;> rfl

theorem body_lowest (val : GoString) (vs : List GoString) (s : Results F) :
    getPrefsBody M (go "lowest") (val :: vs) s =
      match HEXtoRGBA val with
      | .error errc => .ret (s.1, some (.valueError (go "lowest") errc))
      | .ok lc => .next ({ s.1 with lowest := lc }, s.2) := by
  unfold getPrefsBody
  dsimp only
  rw [if_neg (by decide), if_neg (by decide), if_neg (by decide), if_neg (by decide),
    if_pos rfl]

theorem body_highest (val : GoString) (vs : List GoString) (s : Results F) :
    getPrefsBody M (go "highest") (val :: vs) s =
      match HEXtoRGBA val with
      | .error errc => .ret (s.1, some (.valueError (go "highest") errc))
      | .ok hc => .next ({ s.1 with highest := hc }, s.2) := by
  unfold getPrefsBody
  dsimp only
  rw [if_neg (by decide), if_neg (by decide), if_neg (by decide), if_neg (by decide),
    if_neg (by decide), if_pos rfl]

theorem body_func (val : GoString) (vs : List GoString) (s : Results F) :
    getPrefsBody M (go "func") (val :: vs) s =
      if val = go "f1" ∨ val = go "schaffer" then .next ({ s.1 with f := f1 M }, s.2)
      else if val = go "f2" ∨ val = go "eggbox" then .next ({ s.1 with f := f2 M }, s.2)
      else if val = go "f3" ∨ val = go "sinc" then .next ({ s.1 with f := f3 M }, s.2)
      else if val = go "f4" ∨ val = go "moguls" then .next ({ s.1 with f := f4 M }, s.2)
      else if val = go "f5" ∨ val = go "saddle" then .next ({ s.1 with f := f5 M }, s.2)
      else .next (s.1, some (.badFunc (go "func"))) := by
  unfold getPrefsBody
  dsimp only
  rw [if_neg (by decide), if_neg (by decide), if_neg (by decide), if_neg (by decide),
    if_neg (by decide), if_neg (by decide), if_pos rfl]

theorem body_background (val : GoString) (vs : List GoString) (s : Results F) :
    getPrefsBody M (go "background") (val :: vs) s = .next s := by
  unfold getPrefsBody
  dsimp only
  rw [if_neg (by decide), if_neg (by decide), if_neg (by decide), if_neg (by decide),
    if_neg (by decide), if_neg (by decide), if_neg (by decide), if_pos rfl]

theorem body_other (k val : GoString) (vs : List GoString) (s : Results F)
    (hk : k ∉ caseKeys) :
    getPrefsBody M k (val :: vs) s = .ret (s.1, some (.wrongParam k)) := by
  simp only [caseKeys, List.mem_cons, List.mem_singleton, not_or, List.mem_nil_iff,
    or_false] at hk
  obtain ⟨h1, h2, h3, h4, h5, h6, h7, h8⟩ := hk
  unfold getPrefsBody
  dsimp only
  rw [if_neg h1, if_neg h2, if_neg h3, if_neg h4, if_neg h5, if_neg h6, if_neg h7, if_neg h8]

theorem mem_caseKeys (k : GoString) :
    k ∈ caseKeys ↔ k = go "width" ∨ k = go "height" ∨ k = go "cells" ∨ k = go "xyrange" ∨
      k = go "lowest" ∨ k = go "highest" ∨ k = go "func" ∨ k = go "background" := by
  simp only [caseKeys, List.mem_cons, List.mem_singleton, List.mem_nil_iff, or_false]

theorem getPrefsBody_ret (k : GoString) (v : List GoString) (s s1 : Results F)
    (h : getPrefsBody M k v s = .ret s1) : s1.2.isSome = true := by
  cases v with
  | nil => rw [body_nil] at h; cases h; rfl
  | cons val vs =>
    by_cases hk : k ∈ caseKeys
    · rw [mem_caseKeys] at hk
      rcases hk with rfl | rfl | rfl | rfl | rfl | rfl | rfl | rfl
      · rw [body_width] at h; split_ifs at h; cases h; rfl
      · rw [body_height] at h; split_ifs at h; cases h; rfl
      · rw [body_cells] at h; split_ifs at h; cases h; rfl
      · rw [body_xyrange] at h; split_ifs at h; cases h; rfl
      · rw [body_lowest] at h; split at h <;> cases h; rfl
      · rw [body_highest] at h; split at h <;> cases h; rfl
      · rw [body_func] at h; split_ifs at h
      · rw [body_background] at h; cases h
    · rw [body_other M k val vs s hk] at h; cases h; rfl

/-- What one iteration that does not return leaves in the four numeric fields. -/
theorem getPrefsBody_next (k : GoString) (v : List GoString) (s s1 : Results F)
    (h : getPrefsBody M k v s = .next s1) :
    ∃ val vs, v = val :: vs ∧
    s1.1.width = (if k = go "width" then (Atoi val).1 else s.1.width) ∧
    s1.1.height = (if k = go "height" then (Atoi val).1 else s.1.height) ∧
    s1.1.cells = (if k = go "cells" then (Atoi val).1 else s.1.cells) ∧
    s1.1.xyrange = (if k = go "xyrange" then (M.ParseFloat val).1 else s.1.xyrange) := by
  cases v with
  | nil => rw [body_nil] at h; cases h
  | cons val vs =>
    refine ⟨val, vs, rfl, ?_⟩
    by_cases hk : k ∈ caseKeys
    · rw [mem_caseKeys] at hk
      rcases hk with rfl | rfl | rfl | rfl | rfl | rfl | rfl | rfl
      · rw [body_width] at h; split_ifs at h; cases h
        exact ⟨by rw [if_pos rfl], by rw [if_neg (by decide)], by rw [if_neg (by decide)],
          by rw [if_neg (by decide)]⟩
      · rw [body_height] at h; split_ifs at h; cases h
        exact ⟨by rw [if_neg (by decide)], by rw [if_pos rfl], by rw [if_neg (by decide)],
          by rw [if_neg (by decide)]⟩
      · rw [body_cells] at h; split_ifs at h; cases h
        exact ⟨by rw [if_neg (by decide)], by rw [if_neg (by decide)], by rw [if_pos rfl],
          by rw [if_neg (by decide)]⟩
      · rw [body_xyrange] at h; split_ifs at h; cases h
        exact ⟨by rw [if_neg (by decide)], by rw [if_neg (by decide)], by rw [if_neg (by decide)],
          by rw [if_pos rfl]⟩
      · rw [body_lowest] at h; split at h <;> cases h
        exact ⟨by rw [if_neg (by decide)], by rw [if_neg (by decide)], by rw [if_neg (by decide)],
          by rw [if_neg (by decide)]⟩
      · rw [body_highest] at h; split at h <;> cases h
        exact ⟨by rw [if_neg (by decide)], by rw [if_neg (by decide)], by rw [if_neg (by decide)],
          by rw [if_neg (by decide)]⟩
      · rw [body_func] at h
        split_ifs at h <;> cases h <;>
        exact ⟨by rw [if_neg (by decide)], by rw [if_neg (by decide)], by rw [if_neg (by decide)],
          by rw [if_neg (by decide)]⟩
      · rw [body_background] at h; cases h
        exact ⟨by rw [if_neg (by decide)], by rw [if_neg (by decide)], by rw [if_neg (by decide)],
          by rw [if_neg (by decide)]⟩
    · rw [body_other M k val vs s hk] at h; cases h

theorem getPrefsLoop_ret (form : Form) (s s1 : Results F)
    (h : getPrefsLoop M form s = .ret s1) : s1.2.isSome = true := by
  induction form generalizing s with
  | nil => simp [getPrefsLoop] at h
  | cons e rest ih =>
    obtain ⟨k, v⟩ := e
    simp only [getPrefsLoop] at h
    cases hb : getPrefsBody M k v s with
    | ret s2 =>
      rw [hb] at h
      cases h
      exact getPrefsBody_ret M k v s _ hb
    | next s2 =>
      rw [hb] at h
      exact ih s2 h

theorem getPrefs_ok (form : Form) (hok : (getPrefs M form).2 = none) :
    ∃ p, getPrefsLoop M form (defaults M, none) = .next (p, none) ∧
      (getPrefs M form).1 =
        { p with
          _xyscale := M.div (M.div (M.ofInt p.width) (M.ofRat 2)) p.xyrange
          _zscale := M.mul (M.ofInt p.height) (M.ofRat (4 / 10)) } := by
  unfold getPrefs at hok ⊢
  cases hl : getPrefsLoop M form (defaults M, none) with
  | ret s1 =>
    rw [hl] at hok
    have := getPrefsLoop_ret M form _ s1 hl
    simp only at hok
    rw [hok] at this
    cases this
  | next s1 =>
    obtain ⟨p, err⟩ := s1
    rw [hl] at hok
    simp only at hok
    subst hok
    exact ⟨p, rfl, rfl⟩

theorem getPrefsLoop_append (pre rest : Form) (s : Results F) :
    getPrefsLoop M (pre ++ rest) s =
      match getPrefsLoop M pre s with
      | .ret s1 => .ret s1
      | .next s1 => getPrefsLoop M rest s1 := by
  induction pre generalizing s with
  | nil => rfl
  | cons e pre ih =>
    obtain ⟨k, v⟩ := e
    simp only [List.cons_append, getPrefsLoop]
    cases getPrefsBody M k v s with
    | ret s2 => rfl
    | next s2 => exact ih s2

theorem getPrefsBody_unknown (k : GoString) (v : List GoString) (s : Results F)
    (hk : k ∉ caseKeys) :
    ∃ e, getPrefsBody M k v s = .ret (s.1, some e) ∧ e.key = k ∧ M.Quote k <:+: e.Error M := by
  cases v with
  | nil =>
    exact ⟨.noValue k, body_nil M k s, rfl, (List.suffix_append _ _).isInfix⟩
  | cons val vs =>
    exact ⟨.wrongParam k, body_other M k val vs s hk, rfl,
      (List.suffix_append _ _).isInfix⟩

theorem getPrefsLoop_unknown (form : Form) (k : GoString) (v : List GoString) (s : Results F)
    (hmem : (k, v) ∈ form) (hk : k ∉ caseKeys) : ∃ s1, getPrefsLoop M form s = .ret s1 := by
  induction form generalizing s with
  | nil => cases hmem
  | cons e rest ih =>
    obtain ⟨k1, v1⟩ := e
    simp only [getPrefsLoop]
    cases hb : getPrefsBody M k1 v1 s with
    | ret s2 => exact ⟨s2, rfl⟩
    | next s2 =>
      rcases List.mem_cons.mp hmem with heq | hrest
      · cases heq
        obtain ⟨e, he, -⟩ := getPrefsBody_unknown M k v s hk
        rw [he] at hb
        cases hb
      · exact ih s2 hrest

theorem firstValue_none (form : Form) (k : GoString) (h : k ∉ form.map Prod.fst) :
    firstValue form k = none := by
  induction form with
  | nil => rfl
  | cons e rest ih =>
    obtain ⟨k1, v1⟩ := e
    simp only [List.map_cons, List.mem_cons, not_or] at h
    simp only [firstValue]
    rw [if_neg (fun h1 => h.1 h1.symm)]
    exact ih h.2

theorem intParam_cons (k val : GoString) (vs : List GoString) (rest : Form) (key : GoString)
    (d x : Int) (hx : x = if k = key then (Atoi val).1 else d) (hk : k ∉ rest.map Prod.fst) :
    intParam rest key x = intParam ((k, val :: vs) :: rest) key d := by
  unfold intParam
  simp only [firstValue]
  by_cases h : k = key
  · subst h
    rw [firstValue_none rest k hk, if_pos rfl] at *
    simp [hx]
  · rw [if_neg h] at hx ⊢
    rw [hx]

theorem floatParam_cons (k val : GoString) (vs : List GoString) (rest : Form) (key : GoString)
    (d x : F) (hx : x = if k = key then (M.ParseFloat val).1 else d)
    (hk : k ∉ rest.map Prod.fst) :
    floatParam M rest key x = floatParam M ((k, val :: vs) :: rest) key d := by
  unfold floatParam
  simp only [firstValue]
  by_cases h : k = key
  · subst h
    rw [firstValue_none rest k hk, if_pos rfl] at *
    simp [hx]
  · rw [if_neg h] at hx ⊢
    rw [hx]

theorem getPrefsLoop_next (form : Form) (s s1 : Results F)
    (hnd : (form.map Prod.fst).Nodup) (h : getPrefsLoop M form s = .next s1) :
    s1.1.width = intParam form (go "width") s.1.width ∧
    s1.1.height = intParam form (go "height") s.1.height ∧
    s1.1.cells = intParam form (go "cells") s.1.cells ∧
    s1.1.xyrange = floatParam M form (go "xyrange") s.1.xyrange := by
  induction form generalizing s with
  | nil =>
    simp only [getPrefsLoop] at h
    cases h
    exact ⟨rfl, rfl, rfl, rfl⟩
  | cons e rest ih =>
    obtain ⟨k, v⟩ := e
    simp only [List.map_cons, List.nodup_cons] at hnd
    simp only [getPrefsLoop] at h
    cases hb : getPrefsBody M k v s with
    | ret s2 => rw [hb] at h; cases h
    | next s2 =>
      rw [hb] at h
      obtain ⟨val, vs, rfl, hw, hh, hc, hx⟩ := getPrefsBody_next M k v s s2 hb
      obtain ⟨iw, ih2, ic, ix⟩ := ih s2 hnd.2 h
      exact ⟨iw.trans (intParam_cons k val vs rest _ _ _ hw hnd.1),
        ih2.trans (intParam_cons k val vs rest _ _ _ hh hnd.1),
        ic.trans (intParam_cons k val vs rest _ _ _ hc hnd.1),
        ix.trans (floatParam_cons M k val vs rest _ _ _ hx hnd.1)⟩

/-- Claim C6, at the form func=bogus, width=100 visited in that order: the
`default` branch of the inner switch sets `err` but does not return, and the
assignment `p.width, err = strconv.Atoi(val)` of the next iteration overwrites
it with nil; `getPrefs` returns a nil error, the width 100 and the default
surface function `f1`. -/
theorem C6_bogus_func_error_lost :
    (getPrefs M [(go "func", [go "bogus"]), (go "width", [go "100"])]).2 = none ∧
    (getPrefs M [(go "func", [go "bogus"]), (go "width", [go "100"])]).1.width = 100 ∧
    (getPrefs M [(go "func", [go "bogus"]), (go "width", [go "100"])]).1.f = f1 M ∧
    (getPrefs M [(go "width", [go "100"]), (go "func", [go "bogus"])]).2
      = some (.badFunc (go "func")) := by
  have hb : ∀ s : Results F, getPrefsBody M (go "func") [go "bogus"] s
      = .next (s.1, some (.badFunc (go "func"))) := by
    intro s
    rw [body_func, if_neg (by decide), if_neg (by decide), if_neg (by decide),
      if_neg (by decide), if_neg (by decide)]
  have hw : ∀ s : Results F, getPrefsBody M (go "width") [go "100"] s
      = .next ({ s.1 with width := 100 }, none) := by
    intro s
    rw [body_width, if_pos (by decide)]
    have : (Atoi (go "100")).1 = 100 := by decide
    rw [this]
  refine ⟨?_, ?_, ?_, ?_⟩ <;> simp only [getPrefs, getPrefsLoop, hb, hw]
  rfl

/-- Counterexample to C8 as stated: the key `background` is none of the seven
documented parameter names, and `getPrefs` returns no error on the form
background=white. -/
theorem C8_counterexample :
    go "background" ∉ [go "width", go "height", go "cells", go "xyrange", go "lowest",
      go "highest", go "func"] ∧
    (getPrefs Binary64 [(go "background", [go "white"])]).2 = none := by
  constructor
  · decide
  · simp only [getPrefs, getPrefsLoop, body_background]

/-- Claim C8, amended: for every request form that contains a key other than
the eight case labels width, height, cells, xyrange, lowest, highest, func and
background, `getPrefs` returns a non-nil error, whatever the order of
iteration; and when the iteration reaches that key (no entry before it makes
`getPrefs` return), the error is the one raised at that key and its message
names the key (quoted as by `%q`). -/
theorem C8_unknown_key (form : Form) (k : GoString) (v : List GoString)
    (hmem : (k, v) ∈ form) (hk : k ∉ caseKeys) :
    (∃ e, (getPrefs M form).2 = some e) ∧
    (∀ pre post s, form = pre ++ (k, v) :: post →
      getPrefsLoop M pre (defaults M, none) = .next s →
      ∃ e, (getPrefs M form).2 = some e ∧ e.key = k ∧ M.Quote k <:+: e.Error M) := by
  constructor
  · obtain ⟨s1, hs1⟩ := getPrefsLoop_unknown M form k v (defaults M, none) hmem hk
    have hsome := getPrefsLoop_ret M form _ s1 hs1
    unfold getPrefs
    rw [hs1]
    exact Option.isSome_iff_exists.mp hsome
  · intro pre post s hform hpre
    obtain ⟨e, he, hkey, hmsg⟩ := getPrefsBody_unknown M k v s hk
    refine ⟨e, ?_, hkey, hmsg⟩
    unfold getPrefs
    rw [hform, getPrefsLoop_append, hpre]
    simp only [getPrefsLoop, he]

/-- Witness of C8 (amended) at the form width=300, foo=1. -/
theorem C8_witness :
    (go "foo", [go "1"]) ∈ [(go "width", [go "300"]), (go "foo", [go "1"])] ∧
    go "foo" ∉ caseKeys ∧
    ∃ e, (getPrefs Binary64 [(go "width", [go "300"]), (go "foo", [go "1"])]).2 = some e :=
  ⟨by decide, by decide,
    (C8_unknown_key Binary64 [(go "width", [go "300"]), (go "foo", [go "1"])] (go "foo")
      [go "1"] (by decide) (by decide)).1⟩

/-- Counterexample to C9 as stated: on the form width=-5, cells=0, xyrange=-1
`getPrefs` returns no error, and the result has width -5, cells 0 and
xyrange -1. -/
theorem C9_counterexample :
    (getPrefs Binary64
      [(go "width", [go "-5"]), (go "cells", [go "0"]), (go "xyrange", [go "-1"])]).2 = none ∧
    (getPrefs Binary64
      [(go "width", [go "-5"]), (go "cells", [go "0"]), (go "xyrange", [go "-1"])]).1.width
        = -5 ∧
    (getPrefs Binary64
      [(go "width", [go "-5"]), (go "cells", [go "0"]), (go "xyrange", [go "-1"])]).1.cells
        = 0 ∧
    (getPrefs Binary64
      [(go "width", [go "-5"]), (go "cells", [go "0"]), (go "xyrange", [go "-1"])]).1.xyrange
        = .fin (-1) := by
  decide!

/-- Claim C9, amended: for every request form (a map: each key once) on
which `getPrefs` returns no error, the width, height and cells of the result
are the integers `strconv.Atoi` reads from the values of those keys, whatever
their sign, and the defaults 600, 320 and 100 for the keys the form lacks;
xyrange is the value `strconv.ParseFloat` reads, or the default 30. No
override is checked for being positive. -/
theorem C9_getPrefs_fields (form : Form) (hnd : (form.map Prod.fst).Nodup)
    (hok : (getPrefs M form).2 = none) :
    (getPrefs M form).1.width = intParam form (go "width") 600 ∧
    (getPrefs M form).1.height = intParam form (go "height") 320 ∧
    (getPrefs M form).1.cells = intParam form (go "cells") 100 ∧
    (getPrefs M form).1.xyrange = floatParam M form (go "xyrange") (M.ofRat 30) := by
  obtain ⟨p, hloop, hp⟩ := getPrefs_ok M form hok
  have h := getPrefsLoop_next M form _ _ hnd hloop
  rw [hp]
  exact h

/-- Witness of C9 (amended) at the form height=200, width=-5. -/
theorem C9_witness :
    ([(go "height", [go "200"]), (go "width", [go "-5"])].map Prod.fst).Nodup ∧
    (getPrefs Binary64 [(go "height", [go "200"]), (go "width", [go "-5"])]).2 = none ∧
    (getPrefs Binary64 [(go "height", [go "200"]), (go "width", [go "-5"])]).1.width
      = intParam [(go "height", [go "200"]), (go "width", [go "-5"])] (go "width") 600 :=
  ⟨by decide, by decide!,
    (C9_getPrefs_fields Binary64 [(go "height", [go "200"]), (go "width", [go "-5"])]
      (by decide) (by decide!)).1⟩

/-- Claim C10: for every request form on which `getPrefs` returns no error,
the derived fields of the result are computed from the values stored in the
result: `_xyscale = float64(width) / 2 / xyrange` and
`_zscale = float64(height) * 0.4`. -/
theorem C10_derived_fields (form : Form) (hok : (getPrefs M form).2 = none) :
    (getPrefs M form).1._xyscale
      = M.div (M.div (M.ofInt (getPrefs M form).1.width) (M.ofRat 2))
          (getPrefs M form).1.xyrange ∧
    (getPrefs M form).1._zscale
      = M.mul (M.ofInt (getPrefs M form).1.height) (M.ofRat (4 / 10)) := by
  obtain ⟨p, -, hp⟩ := getPrefs_ok M form hok
  rw [hp]
  exact ⟨rfl, rfl⟩

/-- Witness of C10 at the form width=300, height=100, xyrange=15. -/
theorem C10_witness :
    (getPrefs Binary64
      [(go "width", [go "300"]), (go "height", [go "100"]), (go "xyrange", [go "15"])]).2
        = none ∧
    (getPrefs Binary64
      [(go "width", [go "300"]), (go "height", [go "100"]), (go "xyrange", [go "15"])]).1._zscale
        = Binary64.mul (Binary64.ofInt (getPrefs Binary64
            [(go "width", [go "300"]), (go "height", [go "100"]),
              (go "xyrange", [go "15"])]).1.height) (Binary64.ofRat (4 / 10)) :=
  ⟨by decide!,
    (C10_derived_fields Binary64
      [(go "width", [go "300"]), (go "height", [go "100"]), (go "xyrange", [go "15"])]
      (by decide!)).2⟩

/-! ## Theorems: handler -/

/-- Counterexample to C7 as stated: on the forms foo=1, lowest=red and
func=bogus (each accepted by `ParseMultipartForm`), `handler` answers with
status 500, `http.StatusInternalServerError`, which is no client-error (4xx)
status; the body is the validation message. -/
theorem C7_counterexample :
    handler Binary64 ⟨none, [(go "foo", [go "1"])]⟩
      = httpError (go "wrong parameter \"foo\"") 500 ∧
    (handler Binary64 ⟨none, [(go "lowest", [go "red"])]⟩).status = 500 ∧
    (handler Binary64 ⟨none, [(go "func", [go "bogus"])]⟩).status = 500 ∧
    ¬ (400 ≤ (handler Binary64 ⟨none, [(go "foo", [go "1"])]⟩).status ∧
        (handler Binary64 ⟨none, [(go "foo", [go "1"])]⟩).status < 500) := by
  decide!

/-- Claim C7, amended: for every request that `ParseMultipartForm` accepts and
on which `getPrefs` returns an error, `handler` responds through `http.Error`
with the status `http.StatusInternalServerError` (500) and the message of that
error; it responds with the success status 200 exactly when `getPrefs`
returns no error. -/
theorem C7_handler_status (r : Request) (hparse : r.parseErr = none) :
    (∀ err, (getPrefs M r.Form).2 = some err →
      handler M r = httpError (err.Error M) StatusInternalServerError ∧
      (handler M r).status = 500 ∧
      (handler M r).body = [err.Error M ++ go "\n"]) ∧
    ((handler M r).status = StatusOK ↔ (getPrefs M r.Form).2 = none) := by
  unfold handler
  rw [hparse]
  dsimp only
  cases hg : getPrefs M r.Form with
  | mk p e =>
    cases e with
    | none =>
      refine ⟨fun err h => ?_, fun _ => rfl, fun _ => rfl⟩
      cases h
    | some e =>
      refine ⟨fun err h => ?_, fun h => ?_, fun h => ?_⟩
      · cases h
        exact ⟨rfl, rfl, rfl⟩
      · have h500 : ¬ ((500 : Nat) = 200) := by decide
        exact absurd h h500
      · cases h

/-- Witness of C7 (amended) at the form foo=1. -/
theorem C7_witness :
    (⟨none, [(go "foo", [go "1"])]⟩ : Request).parseErr = none ∧
    ((handler Binary64 ⟨none, [(go "foo", [go "1"])]⟩).status = StatusOK ↔
      (getPrefs Binary64 [(go "foo", [go "1"])]).2 = none) :=
  ⟨rfl, (C7_handler_status Binary64 ⟨none, [(go "foo", [go "1"])]⟩ rfl).2⟩

end GetPrefsTheorems

/-! ## Theorems: the color codec, continued -/

theorem byte_cases (P : UInt8 → Prop) (h : ∀ n, n < 256 → P (UInt8.ofNat n)) (c : UInt8) : P c := by
  have hc : UInt8.ofNat c.toNat = c := by
    apply UInt8.eq_of_toBitVec_eq
    apply BitVec.eq_of_toNat_eq
    exact UInt8.toBitVec_eq_of_lt c.toNat_lt
  rw [← hc]
  exact h c.toNat c.toNat_lt

theorem hexDigit_table : ∀ n, n < 16 →
    hexDigit n = (go "0123456789abcdef").getD n 0 := by decide

theorem digitVal_isHexDigit (c : UInt8) (h : isHexDigit c) :
    ∃ d, d < 16 ∧ digitVal c = some d ∧ hexDigit d = (F64.lowerStr [c]).headD 0 := by
  revert h
  apply byte_cases (fun c => isHexDigit c → ∃ d, d < 16 ∧ digitVal c = some d ∧
    hexDigit d = (F64.lowerStr [c]).headD 0)
  decide


theorem length_seven (s : GoString) (h : s.length = 7) :
    ∃ c0 c1 c2 c3 c4 c5 c6, s = [c0, c1, c2, c3, c4, c5, c6] := by
  rcases s with _ | ⟨c0, _ | ⟨c1, _ | ⟨c2, _ | ⟨c3, _ | ⟨c4, _ | ⟨c5, _ | ⟨c6, _ | ⟨c7, s⟩⟩⟩⟩⟩⟩⟩⟩ <;>
    simp at h
  exact ⟨c0, c1, c2, c3, c4, c5, c6, rfl⟩

theorem parseUintLoop_digit (s0 : GoString) (c : UInt8) (d n : Nat) (cs : List UInt8)
    (hc : digitVal c = some d) (hd : d < 16) (hn : n * 16 + d < 2 ^ 32) :
    parseUintLoop s0 16 (2 ^ 32 - 1) ((2 ^ 64 - 1) / 16 + 1) (c :: cs) n
      = parseUintLoop s0 16 (2 ^ 32 - 1) ((2 ^ 64 - 1) / 16 + 1) cs (n * 16 + d) := by
  rw [parseUintLoop, hc]
  have h1 : ¬ (d ≥ 16) := by omega
  have h2 : ¬ (n ≥ (2 ^ 64 - 1) / 16 + 1) := by norm_num at hn ⊢; omega
  have h3 : n * 16 % 2 ^ 64 = n * 16 := Nat.mod_eq_of_lt (by norm_num at hn ⊢; omega)
  have h4 : (n * 16 + d) % 2 ^ 64 = n * 16 + d := Nat.mod_eq_of_lt (by norm_num at hn ⊢; omega)
  simp only [h1, h2, h3, h4, if_false]
  have h5 : ¬ (n * 16 + d < n * 16 ∨ n * 16 + d > 2 ^ 32 - 1) := by norm_num at hn ⊢; omega
  simp only [h5, if_false]

theorem HEXtoRGBA_six (c0 c1 c2 c3 c4 c5 c6 : UInt8) (d1 d2 d3 d4 d5 d6 : Nat)
    (h1 : digitVal c1 = some d1) (h2 : digitVal c2 = some d2) (h3 : digitVal c3 = some d3)
    (h4 : digitVal c4 = some d4) (h5 : digitVal c5 = some d5) (h6 : digitVal c6 = some d6)
    (l1 : d1 < 16) (l2 : d2 < 16) (l3 : d3 < 16) (l4 : d4 < 16) (l5 : d5 < 16) (l6 : d6 < 16) :
    HEXtoRGBA [c0, c1, c2, c3, c4, c5, c6]
      = .ok ⟨d1 * 16 + d2, d3 * 16 + d4, d5 * 16 + d6, 255⟩ := by
  have hparse : ParseUint [c1, c2, c3, c4, c5, c6] 16 32
      = ((d1 * 16 + d2) * 65536 + (d3 * 16 + d4) * 256 + (d5 * 16 + d6), none) := by
    simp only [ParseUint, if_neg (List.cons_ne_nil _ _), show ¬ (32 = 0) by decide, if_false]
    rw [parseUintLoop_digit _ _ _ _ _ h1 l1 (by norm_num; omega),
      parseUintLoop_digit _ _ _ _ _ h2 l2 (by norm_num; omega),
      parseUintLoop_digit _ _ _ _ _ h3 l3 (by norm_num; omega),
      parseUintLoop_digit _ _ _ _ _ h4 l4 (by norm_num; omega),
      parseUintLoop_digit _ _ _ _ _ h5 l5 (by norm_num; omega),
      parseUintLoop_digit _ _ _ _ _ h6 l6 (by norm_num; omega)]
    simp only [parseUintLoop]
    congr 1
    omega
  have hne : ¬ ((7 : Nat) ≠ 4 ∧ (7 : Nat) ≠ 7) := by decide
  have hne3 : ¬ ((6 : Nat) = 3) := by decide
  simp only [HEXtoRGBA, List.length_cons, List.length_nil, List.drop_succ_cons, List.drop_zero,
    Nat.zero_add, Nat.reduceAdd, hne, hne3, if_false]
  rw [hparse]
  have e1 : ((d1 * 16 + d2) * 65536 + (d3 * 16 + d4) * 256 + (d5 * 16 + d6)) >>> 16 % 256
      = d1 * 16 + d2 := by
    rw [Nat.shiftRight_eq_div_pow]; norm_num; omega
  have e2 : (((d1 * 16 + d2) * 65536 + (d3 * 16 + d4) * 256 + (d5 * 16 + d6)) >>> 8 &&& 0xFF)
      % 256 = d3 * 16 + d4 := by
    rw [Nat.shiftRight_eq_div_pow, show (0xFF : Nat) = 2 ^ 8 - 1 by norm_num,
      Nat.and_pow_two_sub_one_eq_mod]; norm_num; omega
  have e3 : (((d1 * 16 + d2) * 65536 + (d3 * 16 + d4) * 256 + (d5 * 16 + d6)) &&& 0xFF) % 256
      = d5 * 16 + d6 := by
    rw [show (0xFF : Nat) = 2 ^ 8 - 1 by norm_num, Nat.and_pow_two_sub_one_eq_mod]
    norm_num; omega
  simp only [e1, e2, e3]

theorem fmtx2_digits (d1 d2 : Nat) (l1 : d1 < 16) (l2 : d2 < 16) :
    fmtx2 (d1 * 16 + d2) = [hexDigit d1, hexDigit d2] := by
  unfold fmtx2
  have a : (d1 * 16 + d2) / 16 % 16 = d1 := by omega
  have b : (d1 * 16 + d2) % 16 = d2 := by omega
  rw [a, b]

/-- Claim C20: for every 7-character string `s` made of `#` and six
hexadecimal digits of any case, `HEXtoRGBA(s)` succeeds and `RGBAtoHEX` of the
color it returns is `s` with its letters in lower case. -/
theorem C20_encode_decode (s : GoString) (hlen : s.length = 7) (h0 : s.head? = some 35)
    (hhex : ∀ b ∈ s.drop 1, isHexDigit b) :
    ∃ c, HEXtoRGBA s = .ok c ∧ RGBAtoHEX c = F64.lowerStr s := by
  obtain ⟨c0, c1, c2, c3, c4, c5, c6, rfl⟩ := length_seven s hlen
  simp only [List.head?_cons, Option.some.injEq] at h0
  subst h0
  simp only [List.drop_succ_cons, List.drop_zero, List.mem_cons, List.mem_singleton,
    forall_eq_or_imp, forall_eq, List.mem_nil_iff, false_imp_iff, implies_true, and_true] at hhex
  obtain ⟨x1, x2, x3, x4, x5, x6⟩ := hhex
  obtain ⟨d1, l1, h1, e1⟩ := digitVal_isHexDigit c1 x1
  obtain ⟨d2, l2, h2, e2⟩ := digitVal_isHexDigit c2 x2
  obtain ⟨d3, l3, h3, e3⟩ := digitVal_isHexDigit c3 x3
  obtain ⟨d4, l4, h4, e4⟩ := digitVal_isHexDigit c4 x4
  obtain ⟨d5, l5, h5, e5⟩ := digitVal_isHexDigit c5 x5
  obtain ⟨d6, l6, h6, e6⟩ := digitVal_isHexDigit c6 x6
  refine ⟨_, HEXtoRGBA_six 35 c1 c2 c3 c4 c5 c6 d1 d2 d3 d4 d5 d6 h1 h2 h3 h4 h5 h6
    l1 l2 l3 l4 l5 l6, ?_⟩
  have hgo : go "#" = [35] := by decide
  simp only [RGBAtoHEX, fmtx2_digits _ _ l1 l2, fmtx2_digits _ _ l3 l4, fmtx2_digits _ _ l5 l6,
    hgo, e1, e2, e3, e4, e5, e6]
  simp only [F64.lowerStr, List.map_cons, List.map_nil, List.headD_cons, List.cons_append,
    List.nil_append]
  rfl

/-- Witness of C20 at the string "#AbCdEf". -/
theorem C20_witness :
    (go "#AbCdEf").length = 7 ∧ (go "#AbCdEf").head? = some 35 ∧
    (∀ b ∈ (go "#AbCdEf").drop 1, isHexDigit b) ∧
    ∃ c, HEXtoRGBA (go "#AbCdEf") = .ok c ∧ RGBAtoHEX c = F64.lowerStr (go "#AbCdEf") :=
  ⟨by decide, by decide, by decide,
    C20_encode_decode (go "#AbCdEf") (by decide) (by decide) (by decide)⟩


theorem fmtx2_table : ∀ n, n < 256 →
    fmtx2 n = [(go "0123456789abcdef").getD (n / 16) 0, (go "0123456789abcdef").getD (n % 16) 0] ∧
    ParseUint (fmtx2 n) 16 8 = (n, none) := by
  decide

/-- Claim C14: for every RGBA color `c` (any alpha), `RGBAtoHEX(c)` has exactly
7 characters: `#`, then for each of `c.R`, `c.G`, `c.B` in that order its two
lowercase hexadecimal digits (the digits of the value divided by 16 and of the
value modulo 16, which `ParseUint` in base 16 reads back to the value); so all
six are among `0-9a-f`. -/
theorem C14_RGBAtoHEX_format (c : RGBA) (hR : c.R < 256) (hG : c.G < 256) (hB : c.B < 256) :
    (RGBAtoHEX c).length = 7 ∧
    RGBAtoHEX c = go "#" ++ fmtx2 c.R ++ fmtx2 c.G ++ fmtx2 c.B ∧
    (∀ n ∈ [c.R, c.G, c.B],
      fmtx2 n = [(go "0123456789abcdef").getD (n / 16) 0,
        (go "0123456789abcdef").getD (n % 16) 0] ∧
      ParseUint (fmtx2 n) 16 8 = (n, none)) ∧
    (∀ b ∈ (RGBAtoHEX c).drop 1,
      (48 ≤ b.toNat ∧ b.toNat ≤ 57) ∨ (97 ≤ b.toNat ∧ b.toNat ≤ 102)) := by
  have hdig : ∀ n, n < 256 → ∀ b ∈ fmtx2 n,
      (48 ≤ b.toNat ∧ b.toNat ≤ 57) ∨ (97 ≤ b.toNat ∧ b.toNat ≤ 102) := by decide
  have hgo : go "#" = [35] := by decide
  refine ⟨rfl, rfl, ?_, ?_⟩
  · intro n hn
    simp only [List.mem_cons, List.mem_singleton, List.mem_nil_iff, or_false] at hn
    rcases hn with rfl | rfl | rfl
    · exact fmtx2_table _ hR
    · exact fmtx2_table _ hG
    · exact fmtx2_table _ hB
  · intro b hb
    simp only [RGBAtoHEX, hgo, List.cons_append, List.nil_append, List.drop_succ_cons,
      List.drop_zero, List.append_assoc, List.mem_append] at hb
    rcases hb with hb | hb | hb
    · exact hdig _ hR b hb
    · exact hdig _ hG b hb
    · exact hdig _ hB b hb

/-- Witness of C14 at a color with alpha 7. -/
theorem C14_witness :
    (255 : Nat) < 256 ∧ (10 : Nat) < 256 ∧ (0 : Nat) < 256 ∧
    (RGBAtoHEX ⟨255, 10, 0, 7⟩).length = 7 ∧ RGBAtoHEX ⟨255, 10, 0, 7⟩ = go "#ff0a00" :=
  ⟨by decide, by decide, by decide,
    (C14_RGBAtoHEX_format ⟨255, 10, 0, 7⟩ (by decide) (by decide) (by decide)).1, by decide⟩

/-! ## Theorems: draw, gradient and the errors of HEXtoRGBA, continued -/

section More
variable {F : Type} (M : Lib F)

theorem polygon_shape (p : prefs F) (i j : Int) (r : GoString) (h : polygon M p i j = some r) :
    go "<polygon points=\x27" <+: r ∧ go "\x27/>\n" <:+ r := by
  unfold polygon at h
  dsimp only at h
  split_ifs at h
  cases h
  refine ⟨?_, List.suffix_append _ _⟩
  simp only [List.append_assoc]
  exact List.prefix_append _ _

theorem mem_polygons (p : prefs F) (r : GoString) (h : r ∈ polygons M p) :
    ∃ i j : Nat, (i : Int) < p.cells ∧ (j : Int) < p.cells ∧ polygon M p i j = some r := by
  unfold polygons at h
  simp only [List.mem_flatMap, List.mem_range, List.mem_filterMap] at h
  obtain ⟨i, hi, j, hj, hr⟩ := h
  exact ⟨i, j, by omega, by omega, hr⟩

/-- Claim C13: for every prefs (any cells, zero and negative included, and
any surface function) `draw` returns (it is a total function), and its writes
are: first the opening tag of the root, which carries `p.width` and `p.height`;
then polygon records only, each written by the loop body at a cell of the
grid, each starting with `<polygon points='` and ending with `'/>`, so none
is an opening or closing tag; last the closing tag `</svg>`. With
`cells ≤ 0` there is no record. -/
theorem C13_draw_document (p : prefs F) :
    ∃ recs : List GoString,
      draw M p = [svgOpen p] ++ recs ++ [go "</svg>"] ∧
      svgOpen p = go "<svg xmlns=\x27http://www.w3.org/2000/svg\x27 " ++
        go "style=\x27stroke: none; fill: none; stroke-width: 0.7\x27 " ++
        go "width=\x27" ++ fmtD p.width ++ go "\x27 height=\x27" ++ fmtD p.height ++ go "\x27>" ∧
      (∀ r ∈ recs, ∃ i j : Nat, (i : Int) < p.cells ∧ (j : Int) < p.cells ∧
        polygon M p i j = some r) ∧
      (∀ r ∈ recs, go "<polygon points=\x27" <+: r ∧ go "\x27/>\n" <:+ r ∧
        r ≠ svgOpen p ∧ r ≠ go "</svg>") ∧
      (p.cells ≤ 0 → recs = []) := by
  refine ⟨polygons M p, rfl, rfl, mem_polygons M p, ?_, ?_⟩
  · intro r hr
    obtain ⟨i, j, -, -, hp⟩ := mem_polygons M p r hr
    obtain ⟨hpre, hsuf⟩ := polygon_shape M p i j r hp
    have a : go "<polygon points=\x27" = 60 :: 112 :: (go "<polygon points=\x27").drop 2 := by
      decide
    have b : go "<svg xmlns=\x27http://www.w3.org/2000/svg\x27 "
        = 60 :: 115 :: (go "<svg xmlns=\x27http://www.w3.org/2000/svg\x27 ").drop 2 := by
      decide
    have hr2 : r.take 2 = [60, 112] := by
      obtain ⟨t, ht⟩ := hpre
      rw [← ht, a]
      rfl
    refine ⟨hpre, hsuf, ?_, ?_⟩
    · intro he
      have hs : (svgOpen p).take 2 = [60, 115] := by
        unfold svgOpen
        rw [b]
        rfl
      rw [he, hs] at hr2
      exact absurd hr2 (by decide)
    · intro he
      rw [he] at hr2
      exact absurd hr2 (by decide)
  · intro hc
    unfold polygons
    have : p.cells.toNat = 0 := Int.toNat_eq_zero.mpr hc
    rw [this]
    rfl


theorem parseUintLoop_error (s0 : GoString) (base maxVal cutoff : Nat) (cs : List UInt8)
    (n : Nat) (err : NumError) (h : (parseUintLoop s0 base maxVal cutoff cs n).2 = some err) :
    err.Func = go "ParseUint" ∧ err.Num = s0 := by
  induction cs generalizing n with
  | nil => simp [parseUintLoop] at h
  | cons c cs ih =>
    rw [parseUintLoop] at h
    split at h
    · simp only [Option.some.injEq] at h; subst h; exact ⟨rfl, rfl⟩
    · dsimp only at h
      split_ifs at h
      · simp only [Option.some.injEq] at h; subst h; exact ⟨rfl, rfl⟩
      · simp only [Option.some.injEq] at h; subst h; exact ⟨rfl, rfl⟩
      · simp only [Option.some.injEq] at h; subst h; exact ⟨rfl, rfl⟩
      · exact ih _ h

theorem ParseUint_error (s : GoString) (base bitSize : Nat) (err : NumError)
    (h : (ParseUint s base bitSize).2 = some err) :
    err.Func = go "ParseUint" ∧ err.Num = s := by
  unfold ParseUint at h
  by_cases hs : s = []
  · rw [if_pos hs] at h
    simp only [Option.some.injEq] at h
    subst h
    exact ⟨rfl, rfl⟩
  · rw [if_neg hs] at h
    exact parseUintLoop_error _ _ _ _ _ _ _ h

/-- Counterexample to C16 as stated: the error of `HEXtoRGBA("#xyz")` carries
the string `xyzxyz` (the input without its first byte, repeated), and its
message does not contain the input `#xyz`. -/
theorem C16_counterexample :
    HEXtoRGBA (go "#xyz")
      = .error (.badDigits (go "xyzxyz") ⟨go "ParseUint", go "xyzxyz", .ErrSyntax⟩) ∧
    HexError.Error Binary64 (.badDigits (go "xyzxyz") ⟨go "ParseUint", go "xyzxyz", .ErrSyntax⟩)
      = go "bad hex \"xyzxyz\": strconv.ParseUint: parsing \"xyzxyz\": invalid syntax" ∧
    ¬ (go "#xyz" <:+:
        go "bad hex \"xyzxyz\": strconv.ParseUint: parsing \"xyzxyz\": invalid syntax") := by
  refine ⟨by decide, by decide!, by decide!⟩

/-- Claim C16, amended: for every string `s` on which `HEXtoRGBA` fails, the
error is of one of two kinds, told apart by the length of `s`. When the length
is neither 4 nor 7 it is `bad hex %q` and echoes `s` itself. Otherwise it is
`bad hex %q: %v` and echoes not `s` but the string handed to `ParseUint`:
`s` without its first byte, and repeated twice when `s` has length 4; `%v` is
the error of `ParseUint`, which names that same string. -/
theorem C16_HEXtoRGBA_errors (s : GoString) (e : HexError) (h : HEXtoRGBA s = .error e) :
    (s.length ≠ 4 ∧ s.length ≠ 7 ∧ e = .badLen s ∧
      e.Error M = go "bad hex " ++ M.Quote s) ∨
    ((s.length = 4 ∨ s.length = 7) ∧
      ∃ err : NumError,
        e = .badDigits (if s.length = 4 then s.drop 1 ++ s.drop 1 else s.drop 1) err ∧
        err.Func = go "ParseUint" ∧
        err.Num = (if s.length = 4 then s.drop 1 ++ s.drop 1 else s.drop 1) ∧
        e.Error M = go "bad hex " ++
          M.Quote (if s.length = 4 then s.drop 1 ++ s.drop 1 else s.drop 1) ++ go ": " ++
          err.Error M) := by
  unfold HEXtoRGBA at h
  split_ifs at h with hlen
  · left
    cases h
    exact ⟨hlen.1, hlen.2, rfl, rfl⟩
  · right
    have hl : s.length = 4 ∨ s.length = 7 := by omega
    refine ⟨hl, ?_⟩
    have hhex : (if (s.drop 1).length = 3 then s.drop 1 ++ s.drop 1 else s.drop 1)
        = (if s.length = 4 then s.drop 1 ++ s.drop 1 else s.drop 1) := by
      have : (s.drop 1).length = 3 ↔ s.length = 4 := by
        rw [List.length_drop]; omega
      simp only [this]
    dsimp only at h
    rw [hhex] at h
    split at h
    · rename_i err herr
      cases h
      obtain ⟨hf, hn⟩ := ParseUint_error _ _ _ _ herr
      exact ⟨err, rfl, hf, hn, rfl⟩
    · cases h

/-- Witness of C16 (amended) at the string "#xyz". -/
theorem C16_witness :
    HEXtoRGBA (go "#xyz")
      = .error (.badDigits (go "xyzxyz") ⟨go "ParseUint", go "xyzxyz", .ErrSyntax⟩) ∧
    ((go "#xyz").length = 4 ∨ (go "#xyz").length = 7) :=
  ⟨by decide,
    ((C16_HEXtoRGBA_errors Binary64 (go "#xyz") _ (by decide :
      HEXtoRGBA (go "#xyz")
        = .error (.badDigits (go "xyzxyz") ⟨go "ParseUint", go "xyzxyz", .ErrSyntax⟩))).resolve_left
      (by decide)).1⟩

/-- Counterexample to C17 as stated, at low = blue, high = red, t = 1: the
alpha channel of `gradient` is 255 while the blue channel of the result, which
is `low.B + byte(t * (high.B - low.B))`, is 0. -/
theorem C17_counterexample :
    (gradient Binary64 blue red (.fin 1)).A = 255 ∧
    (gradient Binary64 blue red (.fin 1)).B = 0 ∧
    add8 blue.B (byte Binary64 (Binary64.mul (.fin 1) (Binary64.ofInt (sub8 red.B blue.B)))) = 0 := by
  decide!

/-- Claim C17, amended: for all endpoint colors `low` and `high` and every
`t`, the alpha channel of `gradient(low, high, t)` starts from the blue channel
of `low` but adds the interpolated difference of the alpha channels:
it equals `low.B + byte(t * float64(high.A - low.A))` in `uint8` arithmetic.
It coincides with the blue channel of the result when the differences
`high.A - low.A` and `high.B - low.B` agree as `uint8` values. -/
theorem C17_gradient_alpha (low high : RGBA) (t : F) (hl : low.valid) (hh : high.valid) :
    (gradient M low high t).A
      = (low.B + byte M (M.mul t (M.ofInt
          (if low.A ≤ high.A then (high.A : Int) - low.A else (high.A : Int) - low.A + 256))))
        % 256 ∧
    (sub8 high.A low.A = sub8 high.B low.B →
      (gradient M low high t).A = (gradient M low high t).B) := by
  obtain ⟨-, -, -, hlA⟩ := hl
  obtain ⟨-, -, -, hhA⟩ := hh
  constructor
  · simp only [gradient, add8]
    rw [sub8_cast _ _ hhA hlA]
  · intro h
    simp only [gradient, h]

/-- Witness of C17 (amended) at the package colors `blue` and `red`. -/
theorem C17_witness :
    blue.valid ∧ red.valid ∧
    (gradient Binary64 blue red (.fin 1)).A
      = (blue.B + byte Binary64 (Binary64.mul (.fin 1) (Binary64.ofInt
          (if blue.A ≤ red.A then (red.A : Int) - blue.A else (red.A : Int) - blue.A + 256))))
        % 256 :=
  ⟨by decide, by decide,
    (C17_gradient_alpha Binary64 blue red (.fin 1) (by decide) (by decide)).1⟩

end More

/-! ## Theorems: rounding to binary64 -/

namespace F64

theorem shiftRight_eq_zero_iff (n k : Nat) : n >>> k = 0 ↔ n < 2 ^ k := by
  rw [Nat.shiftRight_eq_div_pow, Nat.div_eq_zero_iff (by positivity)]

theorem log2Aux_spec (k : Nat) : ∀ n acc, n ≠ 0 → n < 2 ^ 2 ^ k →
    ∃ e, log2Aux k n acc = acc + e ∧ 2 ^ e ≤ n ∧ n < 2 ^ (e + 1) := by
  induction k with
  | zero =>
    intro n acc hn hlt
    refine ⟨0, rfl, ?_, ?_⟩ <;> simp at hlt ⊢ <;> omega
  | succ k ih =>
    intro n acc hn hlt
    rw [log2Aux]
    by_cases hs : n >>> (2 ^ k) = 0
    · rw [if_neg (not_not.mpr hs)]
      exact ih n acc hn ((shiftRight_eq_zero_iff _ _).mp hs)
    · rw [if_pos hs]
      have hD : 0 < 2 ^ 2 ^ k := by positivity
      have hlt2 : n < 2 ^ 2 ^ k * 2 ^ 2 ^ k := by
        rw [← pow_add, ← two_mul, ← pow_succ']; exact hlt
      have hn' : n >>> (2 ^ k) < 2 ^ 2 ^ k := by
        rw [Nat.shiftRight_eq_div_pow]
        exact Nat.div_lt_of_lt_mul hlt2
      obtain ⟨e, he, h1, h2⟩ := ih (n >>> (2 ^ k)) (acc + 2 ^ k) hs hn'
      refine ⟨2 ^ k + e, by rw [he]; omega, ?_, ?_⟩
      · rw [Nat.shiftRight_eq_div_pow] at h1
        calc 2 ^ (2 ^ k + e) = 2 ^ 2 ^ k * 2 ^ e := pow_add _ _ _
          _ ≤ 2 ^ 2 ^ k * (n / 2 ^ 2 ^ k) := Nat.mul_le_mul_left _ h1
          _ ≤ n := Nat.mul_div_le _ _
      · rw [Nat.shiftRight_eq_div_pow] at h2
        have : n < 2 ^ 2 ^ k * (n / 2 ^ 2 ^ k + 1) := Nat.lt_mul_div_succ n hD
        calc n < 2 ^ 2 ^ k * (n / 2 ^ 2 ^ k + 1) := this
          _ ≤ 2 ^ 2 ^ k * 2 ^ (e + 1) := Nat.mul_le_mul_left _ h2
          _ = 2 ^ (2 ^ k + e + 1) := by rw [← pow_add]; rfl

theorem levels_spec (n : Nat) : ∀ f k, n < 2 ^ 2 ^ (k + f) → n < 2 ^ 2 ^ levels n f k := by
  intro f
  induction f with
  | zero => intro k h; simpa [levels] using h
  | succ f ih =>
    intro k h
    rw [levels]
    by_cases hs : n >>> (2 ^ k) = 0
    · rw [if_pos hs]; exact (shiftRight_eq_zero_iff _ _).mp hs
    · rw [if_neg hs]
      apply ih
      have : k + 1 + f = k + (f + 1) := by omega
      rw [this]; exact h

theorem log2_spec (n : Nat) (hn : n ≠ 0) : 2 ^ log2 n ≤ n ∧ n < 2 ^ (log2 n + 1) := by
  have h1 : n < 2 ^ 2 ^ (0 + n) := by
    rw [Nat.zero_add]
    calc n < 2 ^ n := Nat.lt_two_pow n
      _ ≤ 2 ^ 2 ^ n := Nat.pow_le_pow_right (by norm_num) (Nat.lt_two_pow n).le
  obtain ⟨e, he, h2, h3⟩ := log2Aux_spec (levels n n 0) n 0 hn (levels_spec n n 0 h1)
  unfold log2
  rw [he, Nat.zero_add]
  exact ⟨h2, h3⟩

theorem pow2_eq (e : Int) : pow2 e = (2 : ℚ) ^ e := by
  unfold pow2
  split_ifs with h
  · obtain ⟨n, rfl⟩ := Int.eq_ofNat_of_zero_le h
    simp
  · push_neg at h
    obtain ⟨n, hn⟩ := Int.eq_ofNat_of_zero_le (show 0 ≤ -e by omega)
    have he : e = -(n : Int) := by omega
    subst he
    simp

theorem pow2_pos (e : Int) : 0 < pow2 e := by
  rw [pow2_eq]; exact zpow_pos (by norm_num) e

theorem pow2_le (a b : Int) : pow2 a ≤ pow2 b ↔ a ≤ b := by
  rw [pow2_eq, pow2_eq]; exact zpow_le_zpow_iff_right₀ (by norm_num)

theorem pow2_lt (a b : Int) : pow2 a < pow2 b ↔ a < b := by
  rw [pow2_eq, pow2_eq]; exact zpow_lt_zpow_iff_right₀ (by norm_num)

theorem pow2_add (a b : Int) : pow2 (a + b) = pow2 a * pow2 b := by
  rw [pow2_eq, pow2_eq, pow2_eq]; exact zpow_add₀ (by norm_num) a b

theorem pow2_natCast (n : Nat) : pow2 (n : Int) = (2 : ℚ) ^ n := by
  rw [pow2_eq, zpow_natCast]

theorem ilog2_spec (q : ℚ) (hq : 0 < q) : pow2 (ilog2 q) ≤ q ∧ q < pow2 (ilog2 q + 1) := by
  have hnum : 0 < q.num := Rat.num_pos.mpr hq
  have hn0 : q.num.natAbs ≠ 0 := by omega
  have hd0 : q.den ≠ 0 := q.den_nz
  obtain ⟨a1, a2⟩ := log2_spec _ hn0
  obtain ⟨b1, b2⟩ := log2_spec _ hd0
  have hq' : q = (q.num.natAbs : ℚ) / (q.den : ℚ) := by
    have h1 : ((q.num.natAbs : Nat) : ℚ) = (q.num : ℚ) := by
      rw [← Int.cast_natCast, Int.natAbs_of_nonneg hnum.le]
    rw [h1]
    exact (Rat.num_div_den q).symm
  have hdq : (0 : ℚ) < (q.den : ℚ) := by exact_mod_cast Nat.pos_of_ne_zero hd0
  have A1 : (2 : ℚ) ^ log2 q.num.natAbs ≤ (q.num.natAbs : ℚ) := by exact_mod_cast a1
  have A2 : (q.num.natAbs : ℚ) < (2 : ℚ) ^ (log2 q.num.natAbs + 1) := by exact_mod_cast a2
  have B1 : (2 : ℚ) ^ log2 q.den ≤ (q.den : ℚ) := by exact_mod_cast b1
  have B2 : (q.den : ℚ) < (2 : ℚ) ^ (log2 q.den + 1) := by exact_mod_cast b2
  have hsub : ∀ x y : Nat, pow2 ((x : Int) - (y : Int)) = (2 : ℚ) ^ x / (2 : ℚ) ^ y := by
    intro x y
    rw [pow2_eq, zpow_sub₀ (by norm_num), zpow_natCast, zpow_natCast]
  have hp : ∀ y : Nat, (0 : ℚ) < (2 : ℚ) ^ y := fun y => by positivity
  unfold ilog2
  dsimp only
  generalize log2 q.num.natAbs = a at *
  generalize log2 q.den = b at *
  generalize (q.num.natAbs : ℚ) = N at *
  generalize (q.den : ℚ) = D at *
  subst hq'
  split_ifs with h
  · refine ⟨h, ?_⟩
    have : ((a : Int) - (b : Int) + 1) = (((a + 1 : Nat) : Int) - (b : Int)) := by
      push_cast; ring
    rw [this, hsub, div_lt_div_iff₀ hdq (hp _)]
    calc N * 2 ^ b < 2 ^ (a + 1) * 2 ^ b := mul_lt_mul_of_pos_right A2 (hp _)
      _ ≤ 2 ^ (a + 1) * D := mul_le_mul_of_nonneg_left B1 (hp _).le
  · push_neg at h
    constructor
    · have : ((a : Int) - (b : Int) - 1) = ((a : Int) - ((b + 1 : Nat) : Int)) := by
        push_cast; ring
      rw [this, hsub, div_le_div_iff₀ (hp _) hdq]
      have hN : 0 ≤ N := le_trans (hp a).le A1
      calc (2 : ℚ) ^ a * D ≤ N * D := mul_le_mul_of_nonneg_right A1 hdq.le
        _ ≤ N * 2 ^ (b + 1) := mul_le_mul_of_nonneg_left B2.le hN
    · have : ((a : Int) - (b : Int) - 1 + 1) = ((a : Int) - (b : Int)) := by ring
      rw [this]
      exact h

/-- Uniqueness of the binade: the exponent of a positive rational. -/
theorem ilog2_unique (q : ℚ) (hq : 0 < q) (e : Int) (h1 : pow2 e ≤ q) (h2 : q < pow2 (e + 1)) :
    ilog2 q = e := by
  obtain ⟨s1, s2⟩ := ilog2_spec q hq
  have a : e < ilog2 q + 1 := (pow2_lt _ _).mp (lt_of_le_of_lt h1 s2)
  have b : ilog2 q < e + 1 := (pow2_lt _ _).mp (lt_of_le_of_lt s1 h2)
  omega

theorem rnd_eq (q : ℚ) (hq : q ≠ 0) :
    rnd q = if pow2 1024 ≤ rmag |q| then inf (decide (q < 0))
      else if rmag |q| = 0 then zero (decide (q < 0))
      else fin (if q < 0 then -rmag |q| else rmag |q|) := by
  unfold rnd rmag rhe expo
  rw [if_neg hq]

theorem rhe_cases (n : ℚ) :
    (rhe n = ⌊n⌋ ∧ Int.fract n ≤ 1 / 2) ∨ (rhe n = ⌊n⌋ + 1 ∧ 1 / 2 ≤ Int.fract n) := by
  unfold rhe
  dsimp only
  rw [← Rat.floor_def]
  have hr : n - (⌊n⌋ : ℚ) = Int.fract n := rfl
  rw [hr]
  split_ifs with h1 h2 h3
  · exact Or.inl ⟨rfl, h1.le⟩
  · exact Or.inr ⟨rfl, h2.le⟩
  · exact Or.inl ⟨rfl, not_lt.mp h2⟩
  · exact Or.inr ⟨rfl, not_lt.mp h1⟩

theorem floor_le_rhe (n : ℚ) : ⌊n⌋ ≤ rhe n := by
  rcases rhe_cases n with ⟨h, -⟩ | ⟨h, -⟩ <;> omega

theorem le_rhe (n : ℚ) (k : Int) (h : (k : ℚ) ≤ n) : k ≤ rhe n :=
  le_trans (Int.le_floor.mpr h) (floor_le_rhe n)

theorem rhe_le (n : ℚ) (k : Int) (h : n ≤ (k : ℚ)) : rhe n ≤ k := by
  rcases rhe_cases n with ⟨h1, -⟩ | ⟨h1, h2⟩
  · rw [h1]
    exact_mod_cast (Int.floor_le n).trans h
  · rw [h1]
    have hpos : 0 < Int.fract n := lt_of_lt_of_le (by norm_num) h2
    have hlt : (⌊n⌋ : ℚ) < n := by
      have := Int.self_sub_floor n
      linarith
    have : (⌊n⌋ : ℚ) < (k : ℚ) := lt_of_lt_of_le hlt h
    have : ⌊n⌋ < k := by exact_mod_cast this
    omega

theorem rhe_mono (n1 n2 : ℚ) (h : n1 ≤ n2) : rhe n1 ≤ rhe n2 := by
  have hf : ⌊n1⌋ ≤ ⌊n2⌋ := Int.floor_mono h
  rcases rhe_cases n1 with ⟨a1, a2⟩ | ⟨a1, a2⟩ <;> rcases rhe_cases n2 with ⟨b1, b2⟩ | ⟨b1, b2⟩
  · omega
  · omega
  · rcases eq_or_lt_of_le hf with he | hl
    · exfalso
      have e1 := Int.self_sub_floor n1
      have e2 := Int.self_sub_floor n2
      have : (⌊n1⌋ : ℚ) = (⌊n2⌋ : ℚ) := by exact_mod_cast he
      have hfr : Int.fract n1 ≤ Int.fract n2 := by linarith
      have heq1 : Int.fract n1 = 1 / 2 := le_antisymm (hfr.trans b2) a2
      have heq2 : Int.fract n2 = 1 / 2 := le_antisymm b2 (heq1 ▸ hfr)
      -- both are ties with the same floor, so both round the same way
      have : rhe n1 = rhe n2 := by
        have hn : n1 = n2 := by linarith
        rw [hn]
      omega
    · omega
  · omega

theorem expo_ge (a : ℚ) : -1022 ≤ expo a := le_max_right _ _

theorem ilog2_le_expo (a : ℚ) : ilog2 a ≤ expo a := le_max_left _ _

theorem rmag_nonneg (a : ℚ) (ha : 0 < a) : 0 ≤ rmag a := by
  unfold rmag
  have hu := pow2_pos (expo a - 52)
  have : (0 : ℚ) ≤ a / pow2 (expo a - 52) := (div_pos ha hu).le
  have h0 : (0 : Int) ≤ rhe (a / pow2 (expo a - 52)) := le_rhe _ 0 (by simpa using this)
  have : (0 : ℚ) ≤ (rhe (a / pow2 (expo a - 52)) : ℚ) := by exact_mod_cast h0
  positivity

theorem rmag_le_pow2 (a : ℚ) (ha : 0 < a) : rmag a ≤ pow2 (expo a + 1) := by
  unfold rmag
  have hu := pow2_pos (expo a - 52)
  have h1 : a < pow2 (expo a + 1) :=
    lt_of_lt_of_le (ilog2_spec a ha).2 ((pow2_le _ _).mpr (by have := ilog2_le_expo a; omega))
  have h2 : pow2 (expo a + 1) = ((2 ^ 53 : Int) : ℚ) * pow2 (expo a - 52) := by
    have : expo a + 1 = (53 : Int) + (expo a - 52) := by ring
    rw [this, pow2_add, pow2_eq 53]
    norm_num
  have h3 : a / pow2 (expo a - 52) ≤ ((2 ^ 53 : Int) : ℚ) := by
    rw [div_le_iff₀ hu, ← h2]; exact h1.le
  have h4 := rhe_le _ _ h3
  rw [h2]
  exact mul_le_mul_of_nonneg_right (by exact_mod_cast h4) hu.le

theorem pow2_le_rmag (a : ℚ) (ha : 0 < a) (hn : -1022 ≤ ilog2 a) : pow2 (expo a) ≤ rmag a := by
  have he : expo a = ilog2 a := max_eq_left hn
  unfold rmag
  have hu := pow2_pos (expo a - 52)
  have h1 : pow2 (expo a) ≤ a := he ▸ (ilog2_spec a ha).1
  have h2 : pow2 (expo a) = ((2 ^ 52 : Int) : ℚ) * pow2 (expo a - 52) := by
    have : expo a = (52 : Int) + (expo a - 52) := by ring
    conv_lhs => rw [this]
    rw [pow2_add, pow2_eq 52]
    norm_num
  have h3 : ((2 ^ 52 : Int) : ℚ) ≤ a / pow2 (expo a - 52) := by
    rw [le_div_iff₀ hu, ← h2]; exact h1
  have h4 := le_rhe _ _ h3
  rw [h2]
  exact mul_le_mul_of_nonneg_right (by exact_mod_cast h4) hu.le

theorem ilog2_mono (a b : ℚ) (ha : 0 < a) (h : a ≤ b) : ilog2 a ≤ ilog2 b := by
  have h1 := (ilog2_spec a ha).1
  have h2 := (ilog2_spec b (lt_of_lt_of_le ha h)).2
  have := (pow2_lt _ _).mp (lt_of_le_of_lt (h1.trans h) h2)
  omega

theorem rmag_mono (a b : ℚ) (ha : 0 < a) (h : a ≤ b) : rmag a ≤ rmag b := by
  have hb : 0 < b := lt_of_lt_of_le ha h
  have hE : expo a ≤ expo b := max_le_max (ilog2_mono a b ha h) le_rfl
  rcases eq_or_lt_of_le hE with he | hl
  · unfold rmag
    rw [he]
    have hu := pow2_pos (expo b - 52)
    have hn : a / pow2 (expo b - 52) ≤ b / pow2 (expo b - 52) :=
      div_le_div_of_nonneg_right h hu.le
    exact mul_le_mul_of_nonneg_right (by exact_mod_cast rhe_mono _ _ hn) hu.le
  · have hnb : -1022 ≤ ilog2 b := by
      by_contra hc
      have : expo b = -1022 := max_eq_right (by omega)
      have := expo_ge a
      omega
    calc rmag a ≤ pow2 (expo a + 1) := rmag_le_pow2 a ha
      _ ≤ pow2 (expo b) := (pow2_le _ _).mpr (by omega)
      _ ≤ rmag b := pow2_le_rmag b hb hnb

theorem expo_le_of_lt (a : ℚ) (ha : 0 < a) (e : Int) (he : -1022 ≤ e) (h : a < pow2 (e + 1)) :
    expo a ≤ e := by
  have := (pow2_lt _ _).mp (lt_of_le_of_lt (ilog2_spec a ha).1 h)
  exact max_le (by omega) he

/-- Rounding does not cross an integer: a value at most `k` rounds to at most `k`. -/
theorem rmag_le_nat (a : ℚ) (ha : 0 < a) (k : Nat) (hk : k < 2 ^ 53) (h : a ≤ (k : ℚ)) :
    rmag a ≤ (k : ℚ) := by
  have hE : expo a ≤ 52 := by
    apply expo_le_of_lt a ha 52 (by norm_num)
    have h53 : pow2 (52 + 1) = ((2 ^ 53 : Nat) : ℚ) := by
      rw [pow2_eq]; norm_num
    rw [h53]
    exact lt_of_le_of_lt h (by exact_mod_cast hk)
  obtain ⟨j, hj⟩ := Int.eq_ofNat_of_zero_le (show 0 ≤ 52 - expo a by omega)
  have hu := pow2_pos (expo a - 52)
  have hone : ((2 ^ j : Nat) : ℚ) * pow2 (expo a - 52) = 1 := by
    have : ((2 ^ j : Nat) : ℚ) = pow2 (j : Int) := by rw [pow2_natCast]; norm_cast
    rw [this, ← pow2_add, ← hj]
    have : 52 - expo a + (expo a - 52) = 0 := by ring
    rw [this, pow2_eq]
    simp
  unfold rmag
  have hn : a / pow2 (expo a - 52) ≤ (((k * 2 ^ j : Nat) : Int) : ℚ) := by
    rw [div_le_iff₀ hu]
    push_cast
    have : (k : ℚ) * (2 : ℚ) ^ j * pow2 (expo a - 52) = k := by
      have h2 : ((2 ^ j : Nat) : ℚ) = (2 : ℚ) ^ j := by norm_cast
      rw [mul_assoc, ← h2, hone, mul_one]
    rw [this]
    exact h
  have h4 := rhe_le _ _ hn
  calc (rhe (a / pow2 (expo a - 52)) : ℚ) * pow2 (expo a - 52)
      ≤ (((k * 2 ^ j : Nat) : Int) : ℚ) * pow2 (expo a - 52) :=
        mul_le_mul_of_nonneg_right (by exact_mod_cast h4) hu.le
    _ = k := by
        push_cast
        have h2 : ((2 ^ j : Nat) : ℚ) = (2 : ℚ) ^ j := by norm_cast
        rw [mul_assoc, ← h2, hone, mul_one]

/-- Doubling a value in the normal range doubles its rounding. -/
theorem rmag_double (a : ℚ) (ha : 0 < a) (hn : -1022 ≤ ilog2 a) : rmag (2 * a) = 2 * rmag a := by
  have h2a : 0 < 2 * a := by positivity
  obtain ⟨s1, s2⟩ := ilog2_spec a ha
  have hp1 : ∀ e : Int, pow2 (e + 1) = 2 * pow2 e := by
    intro e
    rw [add_comm, pow2_add, pow2_eq 1]; norm_num
  have hl : ilog2 (2 * a) = ilog2 a + 1 := by
    apply ilog2_unique _ h2a
    · rw [hp1]; linarith
    · rw [hp1, hp1]; linarith [hp1 (ilog2 a)]
  have he : expo a = ilog2 a := max_eq_left hn
  have he2 : expo (2 * a) = expo a + 1 := by
    unfold expo
    rw [hl, max_eq_left hn, max_eq_left (by omega)]
  unfold rmag
  rw [he2]
  have hu : pow2 (expo a + 1 - 52) = 2 * pow2 (expo a - 52) := by
    have : expo a + 1 - 52 = (expo a - 52) + 1 := by ring
    rw [this, hp1]
  rw [hu]
  have hpos := pow2_pos (expo a - 52)
  have hq : 2 * a / (2 * pow2 (expo a - 52)) = a / pow2 (expo a - 52) := by
    field_simp
    ring
  rw [hq]
  ring

theorem trunc_eq_floor (v : ℚ) (hv : 0 ≤ v) : trunc v = ⌊v⌋ := by
  unfold trunc
  rw [Rat.floor_def, Int.tdiv_eq_ediv (Rat.num_nonneg.mpr hv) (by exact_mod_cast Nat.zero_le _)]

theorem rval_mono (x y : ℚ) (h : x ≤ y) : rval x ≤ rval y := by
  unfold rval
  split_ifs with h1 h2 h2
  · exact le_rfl
  · exact rmag_nonneg y (not_le.mp h2)
  · exact absurd (h.trans h2) h1
  · exact rmag_mono x y (not_le.mp h1) h

theorem rval_nonneg (x : ℚ) : 0 ≤ rval x := by
  unfold rval
  split_ifs with h
  · exact le_rfl
  · exact rmag_nonneg x (not_le.mp h)

theorem rval_le_nat (x : ℚ) (k : Nat) (hk : k < 2 ^ 53) (h : x ≤ (k : ℚ)) : rval x ≤ (k : ℚ) := by
  unfold rval
  split_ifs with h1
  · exact_mod_cast Nat.zero_le k
  · exact rmag_le_nat x (not_le.mp h1) k hk h

/-- The conversion to `uint8` of the rounding of a value between 0 and 255 is
the integer part of the rounded value. -/
theorem toUint8_rnd (x : ℚ) (h0 : 0 ≤ x) (h1 : x ≤ 255) :
    ((toUint8 (rnd x) : Nat) : Int) = ⌊rval x⌋ := by
  have hv0 := rval_nonneg x
  have hv1 : rval x ≤ ((255 : Nat) : ℚ) := rval_le_nat x 255 (by norm_num) (by simpa using h1)
  rcases eq_or_lt_of_le h0 with hx | hx
  · subst hx
    have : rnd 0 = zero false := by decide!
    rw [this]
    simp [toUint8, rval]
  · have hr : rval x = rmag x := by unfold rval; rw [if_neg (not_le.mpr hx)]
    rw [hr] at hv0 hv1 ⊢
    rw [rnd_eq x hx.ne', abs_of_pos hx]
    have hov : ¬ pow2 1024 ≤ rmag x := by
      have : (255 : ℚ) < pow2 1024 := by rw [pow2_eq]; norm_num
      push_cast at hv1
      linarith
    rw [if_neg hov, if_neg (not_lt.mpr hx.le)]
    by_cases hz : rmag x = 0
    · rw [if_pos hz, hz]; simp [toUint8]
    · rw [if_neg hz]
      simp only [toUint8, trunc_eq_floor _ hv0]
      have f0 : 0 ≤ ⌊rmag x⌋ := Int.floor_nonneg.mpr hv0
      have f1 : ⌊rmag x⌋ ≤ 255 := by
        have : ⌊rmag x⌋ ≤ ⌊((255 : Nat) : ℚ)⌋ := Int.floor_mono hv1
        simpa using this
      rw [if_pos (by constructor <;> omega)]
      omega

theorem unit_interval (t1 t2 : F64) (h0 : le (zero false) t1) (h12 : le t1 t2)
    (h1 : le t2 (fin 1)) :
    isFinite t1 ∧ isFinite t2 ∧ 0 ≤ t1.toRat ∧ t1.toRat ≤ t2.toRat ∧ t2.toRat ≤ 1 := by
  cases t1 with
  | nan => simp [le] at h0
  | inf s =>
    cases t2 with
    | nan => simp [le] at h12
    | inf t =>
      simp [le] at h0 h1
      subst h0
      subst h1
      simp [le] at h12
    | zero t => simp [le] at h0 h12; rw [h0] at h12; cases h12
    | fin q => simp [le] at h0 h12; rw [h0] at h12; cases h12
  | zero s =>
    cases t2 with
    | nan => simp [le] at h12
    | inf t => simp [le] at h1 h12; rw [h1] at h12; cases h12
    | zero t => simp [le, isFinite, toRat]
    | fin q => simp [le, toRat] at h12 h1; simp [isFinite, toRat, h12, h1]
  | fin q1 =>
    cases t2 with
    | nan => simp [le] at h12
    | inf t => simp [le] at h1 h12; rw [h1] at h12; cases h12
    | zero t => simp [le, toRat] at h0 h12; simp [isFinite, toRat, h0, h12]
    | fin q => simp [le, toRat] at h0 h12 h1; simp [isFinite, toRat, h0, h12, h1]

theorem rnd_small_nat : ∀ d : Nat, d < 256 → d ≠ 0 → rnd (((d : Nat) : Int) : ℚ) = fin (d : ℚ) := by
  decide!

theorem rnd_zero : rnd 0 = zero false := by decide!

/-- The byte of `t * float64(d)` for a finite `t` in [0, 1] and `d` in 0..255:
the integer part of the rounded product. -/
theorem toUint8_mul (t : F64) (d : Nat) (ht : isFinite t) (h0 : 0 ≤ t.toRat) (h1 : t.toRat ≤ 1)
    (hd : d < 256) :
    ((toUint8 (mul t (rnd (((d : Nat) : Int) : ℚ))) : Nat) : Int) = ⌊rval (t.toRat * d)⌋ := by
  have hrz : rval 0 = 0 := by simp [rval]
  rcases Nat.eq_zero_or_pos d with hd0 | hdpos
  · subst hd0
    simp only [Nat.cast_zero, Int.cast_zero, mul_zero, rnd_zero, hrz, Int.floor_zero]
    cases t with
    | nan => cases ht
    | inf s => cases ht
    | zero s => simp [mul, toUint8]
    | fin q => simp [mul, toUint8]
  · rw [rnd_small_nat d hd (by omega)]
    cases t with
    | nan => cases ht
    | inf s => cases ht
    | zero s => simp [mul, toUint8, toRat, hrz]
    | fin q =>
      simp only [toRat] at h0 h1 ⊢
      have hdq : (0 : ℚ) ≤ (d : ℚ) := by positivity
      have hd255 : (d : ℚ) ≤ 255 := by
        have : d ≤ 255 := by omega
        exact_mod_cast this
      have : mul (fin q) (fin (d : ℚ)) = rnd (q * d) := rfl
      rw [this]
      apply toUint8_rnd
      · positivity
      · calc q * d ≤ 1 * d := mul_le_mul_of_nonneg_right h1 hdq
          _ ≤ 255 := by simpa using hd255

/-- One channel of `gradient` on a non-wrapping range: it stays between the
endpoints and grows with `t`. -/
theorem channel_mono (lo hi : Nat) (hlo : lo ≤ hi) (hhi : hi < 256) (t1 t2 : F64)
    (h0 : le (zero false) t1) (h12 : le t1 t2) (h1 : le t2 (fin 1)) :
    lo ≤ add8 lo (byte Binary64 (Binary64.mul t1 (Binary64.ofInt (sub8 hi lo)))) ∧
    add8 lo (byte Binary64 (Binary64.mul t1 (Binary64.ofInt (sub8 hi lo))))
      ≤ add8 lo (byte Binary64 (Binary64.mul t2 (Binary64.ofInt (sub8 hi lo)))) ∧
    add8 lo (byte Binary64 (Binary64.mul t2 (Binary64.ofInt (sub8 hi lo)))) ≤ hi := by
  obtain ⟨f1, f2, a0, a12, a1⟩ := unit_interval t1 t2 h0 h12 h1
  have hsub : sub8 hi lo = hi - lo := by unfold sub8; omega
  have hd : hi - lo < 256 := by omega
  have e1 := toUint8_mul t1 (hi - lo) f1 a0 (a12.trans a1) hd
  have e2 := toUint8_mul t2 (hi - lo) f2 (a0.trans a12) a1 hd
  have hdq : (0 : ℚ) ≤ ((hi - lo : Nat) : ℚ) := by positivity
  have m12 : ⌊rval (t1.toRat * (hi - lo : Nat))⌋ ≤ ⌊rval (t2.toRat * (hi - lo : Nat))⌋ :=
    Int.floor_mono (rval_mono _ _ (mul_le_mul_of_nonneg_right a12 hdq))
  have m2 : ⌊rval (t2.toRat * (hi - lo : Nat))⌋ ≤ ((hi - lo : Nat) : Int) := by
    have hle : t2.toRat * (hi - lo : Nat) ≤ ((hi - lo : Nat) : ℚ) := by
      calc t2.toRat * (hi - lo : Nat) ≤ 1 * (hi - lo : Nat) :=
            mul_le_mul_of_nonneg_right a1 hdq
        _ = _ := one_mul _
    have := Int.floor_mono (rval_le_nat _ (hi - lo) (by omega) hle)
    simpa using this
  rw [← e1, ← e2] at m12
  rw [← e2] at m2
  have c12 : toUint8 (mul t1 (rnd (((hi - lo : Nat) : Int) : ℚ)))
      ≤ toUint8 (mul t2 (rnd (((hi - lo : Nat) : Int) : ℚ))) := by exact_mod_cast m12
  have c2 : toUint8 (mul t2 (rnd (((hi - lo : Nat) : Int) : ℚ))) ≤ hi - lo := by
    exact_mod_cast m2
  simp only [add8, byte, hsub, Binary64]
  omega

end F64

/-- Claim C15: for the binary64 arithmetic, all endpoint colors and all
normalized elevations `0 ≤ t1 ≤ t2 ≤ 1`: on each of the channels R, G, B whose
endpoint values satisfy `lo ≤ hi` (a non-wrapping range), the channel of
`gradient(low, high, t1)` is at most that of `gradient(low, high, t2)`, and
both lie in `[lo, hi]`. -/
theorem C15_gradient_monotone (low high : RGBA) (hl : low.valid) (hh : high.valid)
    (t1 t2 : F64) (h0 : F64.le (.zero false) t1) (h12 : F64.le t1 t2) (h1 : F64.le t2 (.fin 1)) :
    (low.R ≤ high.R →
      low.R ≤ (gradient Binary64 low high t1).R ∧
      (gradient Binary64 low high t1).R ≤ (gradient Binary64 low high t2).R ∧
      (gradient Binary64 low high t2).R ≤ high.R) ∧
    (low.G ≤ high.G →
      low.G ≤ (gradient Binary64 low high t1).G ∧
      (gradient Binary64 low high t1).G ≤ (gradient Binary64 low high t2).G ∧
      (gradient Binary64 low high t2).G ≤ high.G) ∧
    (low.B ≤ high.B →
      low.B ≤ (gradient Binary64 low high t1).B ∧
      (gradient Binary64 low high t1).B ≤ (gradient Binary64 low high t2).B ∧
      (gradient Binary64 low high t2).B ≤ high.B) := by
  obtain ⟨-, -, -, -⟩ := hl
  obtain ⟨hR, hG, hB, -⟩ := hh
  exact ⟨fun h => F64.channel_mono _ _ h hR t1 t2 h0 h12 h1,
    fun h => F64.channel_mono _ _ h hG t1 t2 h0 h12 h1,
    fun h => F64.channel_mono _ _ h hB t1 t2 h0 h12 h1⟩

/-- Witness of C15 at the colors (0, 0, 0) and (255, 128, 7) with `t1 = 0.25`
and `t2 = 0.75`. -/
theorem C15_witness :
    (⟨0, 0, 0, 255⟩ : RGBA).valid ∧ (⟨255, 128, 7, 255⟩ : RGBA).valid ∧
    F64.le (.zero false) (.fin (1 / 4)) ∧ F64.le (.fin (1 / 4)) (.fin (3 / 4)) ∧
    F64.le (.fin (3 / 4)) (.fin 1) ∧
    ((0 : Nat) ≤ 255 →
      0 ≤ (gradient Binary64 ⟨0, 0, 0, 255⟩ ⟨255, 128, 7, 255⟩ (.fin (1 / 4))).R ∧
      (gradient Binary64 ⟨0, 0, 0, 255⟩ ⟨255, 128, 7, 255⟩ (.fin (1 / 4))).R
        ≤ (gradient Binary64 ⟨0, 0, 0, 255⟩ ⟨255, 128, 7, 255⟩ (.fin (3 / 4))).R ∧
      (gradient Binary64 ⟨0, 0, 0, 255⟩ ⟨255, 128, 7, 255⟩ (.fin (3 / 4))).R ≤ 255) :=
  ⟨by decide, by decide, by simp [F64.le, F64.toRat], by simp [F64.le, F64.toRat]; norm_num,
    by simp [F64.le, F64.toRat]; norm_num,
    (C15_gradient_monotone ⟨0, 0, 0, 255⟩ ⟨255, 128, 7, 255⟩ (by decide) (by decide)
      (.fin (1 / 4)) (.fin (3 / 4)) (by simp [F64.le, F64.toRat])
      (by simp [F64.le, F64.toRat]; norm_num) (by simp [F64.le, F64.toRat]; norm_num)).1⟩

/-! ## Theorems: the endpoints of the gradient and the sampled domain -/

section Endpoints
variable {F : Type} (M : Lib F)

/-- The endpoints of one channel, from the two facts of `float64` arithmetic
`byte(0 * float64(d)) = 0` and `byte(1 * float64(d)) = d` for a `uint8` `d`. -/
theorem gradient_endpoints (low high : RGBA) (hl : low.valid) (hh : high.valid)
    (h0 : ∀ d : Nat, d < 256 → byte M (M.mul (M.ofRat 0) (M.ofInt d)) = 0)
    (h1 : ∀ d : Nat, d < 256 → byte M (M.mul (M.ofRat 1) (M.ofInt d)) = d) :
    ((gradient M low high (M.ofRat 0)).R = low.R ∧
      (gradient M low high (M.ofRat 0)).G = low.G ∧
      (gradient M low high (M.ofRat 0)).B = low.B) ∧
    ((gradient M low high (M.ofRat 1)).R = high.R ∧
      (gradient M low high (M.ofRat 1)).G = high.G ∧
      (gradient M low high (M.ofRat 1)).B = high.B) := by
  obtain ⟨lR, lG, lB, -⟩ := hl
  obtain ⟨hR, hG, hB, -⟩ := hh
  have s : ∀ a b : Nat, a < 256 → b < 256 → sub8 a b < 256 ∧ (b + sub8 a b) % 256 = a := by
    intro a b ha hb
    unfold sub8
    omega
  simp only [gradient, add8]
  refine ⟨⟨?_, ?_, ?_⟩, ⟨?_, ?_, ?_⟩⟩
  · rw [h0 _ (s _ _ hR lR).1]; omega
  · rw [h0 _ (s _ _ hG lG).1]; omega
  · rw [h0 _ (s _ _ hB lB).1]; omega
  · rw [h1 _ (s _ _ hR lR).1]; exact (s _ _ hR lR).2
  · rw [h1 _ (s _ _ hG lG).1]; exact (s _ _ hG lG).2
  · rw [h1 _ (s _ _ hB lB).1]; exact (s _ _ hB lB).2

end Endpoints

theorem byte_zero_mul : ∀ d : Nat, d < 256 →
    byte Binary64 (Binary64.mul (Binary64.ofRat 0) (Binary64.ofInt d)) = 0 := by
  decide!

theorem byte_one_mul : ∀ d : Nat, d < 256 →
    byte Binary64 (Binary64.mul (Binary64.ofRat 1) (Binary64.ofInt d)) = d := by
  decide!

/-- Claim C19: for the binary64 arithmetic and all endpoint colors `low` and
`high`, pairs in which a channel of `high` is below that of `low` included,
`gradient(low, high, 0)` has the R, G and B of `low`, and
`gradient(low, high, 1)` has the R, G and B of `high`. -/
theorem C19_gradient_endpoints (low high : RGBA) (hl : low.valid) (hh : high.valid) :
    ((gradient Binary64 low high (Binary64.ofRat 0)).R = low.R ∧
      (gradient Binary64 low high (Binary64.ofRat 0)).G = low.G ∧
      (gradient Binary64 low high (Binary64.ofRat 0)).B = low.B) ∧
    ((gradient Binary64 low high (Binary64.ofRat 1)).R = high.R ∧
      (gradient Binary64 low high (Binary64.ofRat 1)).G = high.G ∧
      (gradient Binary64 low high (Binary64.ofRat 1)).B = high.B) :=
  gradient_endpoints Binary64 low high hl hh byte_zero_mul byte_one_mul

/-- Witness of C19 at low = blue, high = red, where the blue channel of
`high` is below that of `low`. -/
theorem C19_witness :
    blue.valid ∧ red.valid ∧ red.B < blue.B ∧
    (gradient Binary64 blue red (Binary64.ofRat 1)).B = red.B :=
  ⟨by decide, by decide, by decide,
    (C19_gradient_endpoints blue red (by decide) (by decide)).2.2.2⟩

/-- Claim C18, at the default prefs (xyrange 30, cells 100): the domain
coordinate that `corner` computes for index 0 is -15 and for index `cells` is
+15, half of `-xyrange` and `+xyrange`; the same holds for xyrange 8 and 4
cells. -/
theorem C18_half_range :
    coord Binary64 (defaults Binary64) 0 = .fin (-15) ∧
    coord Binary64 (defaults Binary64) 100 = .fin 15 ∧
    (defaults Binary64).xyrange = .fin 30 ∧
    coord Binary64 { defaults Binary64 with xyrange := .fin 8, cells := 4 } 0 = .fin (-4) ∧
    coord Binary64 { defaults Binary64 with xyrange := .fin 8, cells := 4 } 4 = .fin 4 := by
  decide!

/-! ## Theorems: the saddle at the default prefs -/

namespace F64

theorem bounded_fin (k : Nat) (q : ℚ) : bounded k (fin q) ↔ |q| ≤ (k : ℚ) := Iff.rfl

theorem rnd_bounded (x : ℚ) (k : Nat) (hk : k < 2 ^ 53) (h : |x| ≤ (k : ℚ)) : bounded k (rnd x) := by
  by_cases hx : x = 0
  · subst hx; rw [rnd_zero]; trivial
  · have ha : 0 < |x| := abs_pos.mpr hx
    have hm := rmag_le_nat |x| ha k hk h
    have hm0 := rmag_nonneg |x| ha
    rw [rnd_eq x hx]
    have hov : ¬ pow2 1024 ≤ rmag |x| := by
      have : ((k : Nat) : ℚ) < pow2 1024 := by
        rw [pow2_eq]
        have : ((k : Nat) : ℚ) < ((2 ^ 53 : Nat) : ℚ) := by exact_mod_cast hk
        calc ((k : Nat) : ℚ) < ((2 ^ 53 : Nat) : ℚ) := this
          _ ≤ (2 : ℚ) ^ (1024 : Int) := by norm_num
      linarith
    rw [if_neg hov]
    by_cases hz : rmag |x| = 0
    · rw [if_pos hz]; trivial
    · rw [if_neg hz, bounded_fin]
      by_cases hneg : x < 0
      · rw [if_pos hneg, abs_neg, abs_of_nonneg hm0]; exact hm
      · rw [if_neg hneg, abs_of_nonneg hm0]; exact hm

theorem mul_self_bounded (x : F64) (k : Nat) (hk : k * k < 2 ^ 53) (h : bounded k x) :
    bounded (k * k) (mul x x) := by
  cases x with
  | nan => cases h
  | inf s => cases h
  | zero s => trivial
  | fin q =>
    have : mul (fin q) (fin q) = rnd (q * q) := rfl
    rw [this]
    apply rnd_bounded _ _ hk
    rw [bounded_fin] at h
    rw [abs_mul]
    push_cast
    exact mul_le_mul h h (abs_nonneg _) (by positivity)

theorem sub_bounded (x y : F64) (k l : Nat) (hk : k + l < 2 ^ 53) (hx : bounded k x)
    (hy : bounded l y) : bounded (k + l) (sub x y) := by
  have hkl : ((k + l : Nat) : ℚ) = (k : ℚ) + (l : ℚ) := by push_cast; rfl
  have k0 : (0 : ℚ) ≤ (k : ℚ) := by positivity
  have l0 : (0 : ℚ) ≤ (l : ℚ) := by positivity
  cases x with
  | nan => cases hx
  | inf s => cases hx
  | zero s =>
    cases y with
    | nan => cases hy
    | inf t => cases hy
    | zero t => trivial
    | fin b =>
      rw [bounded_fin] at hy
      have : sub (zero s) (fin b) = fin (-b) := rfl
      rw [this, bounded_fin, abs_neg, hkl]
      linarith
  | fin a =>
    rw [bounded_fin] at hx
    cases y with
    | nan => cases hy
    | inf t => cases hy
    | zero t =>
      have : sub (fin a) (zero t) = fin a := rfl
      rw [this, bounded_fin, hkl]
      linarith
    | fin b =>
      rw [bounded_fin] at hy
      have : sub (fin a) (fin b) = rnd (a + -b) := rfl
      rw [this]
      apply rnd_bounded _ _ hk
      rw [hkl]
      calc |a + -b| ≤ |a| + |-b| := abs_add _ _
        _ = |a| + |b| := by rw [abs_neg]
        _ ≤ k + l := add_le_add hx hy

theorem finite_of_bounded (k : Nat) (x : F64) (h : bounded k x) : finite Binary64 x := by
  cases x with
  | nan => cases h
  | inf s => cases h
  | zero s => exact ⟨rfl, rfl⟩
  | fin q => exact ⟨rfl, rfl⟩

end F64

theorem saddle_coord : ∀ i : Nat, i < 101 → F64.bounded 15 (coord Binary64 saddle i) := by
  decide!

theorem saddle_finiteAt (i j : Nat) (hi : i < 101) (hj : j < 101) :
    finiteAt Binary64 saddle i j := by
  unfold finiteAt
  have hx := F64.mul_self_bounded _ 15 (by norm_num) (saddle_coord i hi)
  have hy := F64.mul_self_bounded _ 15 (by norm_num) (saddle_coord j hj)
  exact F64.finite_of_bounded _ _ (F64.sub_bounded _ _ _ _ (by norm_num) hx hy)

theorem saddle_invalidCells : invalidCells Binary64 saddle = [] := by
  unfold invalidCells
  rw [List.filter_eq_nil_iff]
  intro c hc
  have hcells : saddle.cells.toNat = 100 := by decide
  rw [hcells] at hc
  obtain ⟨i, j⟩ := c
  rw [mem_grid] at hc
  simp only [decide_not, Bool.not_eq_true', decide_eq_false_iff_not, not_not]
  have h1 := saddle_finiteAt i j (by omega) (by omega)
  have h2 := saddle_finiteAt (i + 1) j (by omega) (by omega)
  have h3 := saddle_finiteAt i (j + 1) (by omega) (by omega)
  have h4 := saddle_finiteAt (i + 1) (j + 1) (by omega) (by omega)
  rw [Nat.cast_add, Nat.cast_one] at h2 h3 h4
  exact ⟨h1, h2, h3, h4⟩

theorem polygons_length {F : Type} (M : Lib F) (p : prefs F) (n m : Nat)
    (hn : p.cells.toNat = n) (hm : n * n = m) (h : invalidCells M p = []) :
    (polygons M p).length = m := by
  have hlen := length_filterMap_add (fun c : Nat × Nat => polygon M p c.1 c.2) (grid p.cells.toNat)
  rw [← polygons_eq_filterMap, ← invalidCells_eq, length_grid, h, hn, hm, List.length_nil] at hlen
  exact hlen

theorem draw_eq {F : Type} (M : Lib F) (p : prefs F) :
    draw M p = [svgOpen p] ++ polygons M p ++ [go "</svg>"] := rfl

theorem saddle_cells : saddle.cells.toNat = 100 := by decide

theorem saddle_getPrefs :
    (getPrefs Binary64 saddleForm).2 = none ∧
    (getPrefs Binary64 saddleForm).1.width = saddle.width ∧
    (getPrefs Binary64 saddleForm).1.height = saddle.height ∧
    (getPrefs Binary64 saddleForm).1.cells = saddle.cells ∧
    (getPrefs Binary64 saddleForm).1.xyrange = saddle.xyrange ∧
    (getPrefs Binary64 saddleForm).1._xyscale = saddle._xyscale ∧
    (getPrefs Binary64 saddleForm).1._zscale = saddle._zscale ∧
    (getPrefs Binary64 saddleForm).1.lowest = saddle.lowest ∧
    (getPrefs Binary64 saddleForm).1.highest = saddle.highest := by
  decide!

theorem saddle_svgOpen :
    svgOpen saddle = go ("<svg xmlns=\x27http://www.w3.org/2000/svg\x27 " ++
      "style=\x27stroke: none; fill: none; stroke-width: 0.7\x27 " ++
      "width=\x27600\x27 height=\x27320\x27>") := by
  decide

/-- Claim C12: for the configuration width=600, height=320, cells=100,
xyrange=30.0, func=f5 with the default colors (the prefs `getPrefs` returns
for it), in binary64 arithmetic: `f5` is finite at every grid vertex, `draw`
writes exactly 10000 polygon records between the opening and the closing tag,
and the opening tag carries `width='600'` and `height='320'`. -/
theorem C12_saddle_polygons :
    ((getPrefs Binary64 saddleForm).2 = none ∧
    (getPrefs Binary64 saddleForm).1.width = saddle.width ∧
    (getPrefs Binary64 saddleForm).1.height = saddle.height ∧
    (getPrefs Binary64 saddleForm).1.cells = saddle.cells ∧
    (getPrefs Binary64 saddleForm).1.xyrange = saddle.xyrange ∧
    (getPrefs Binary64 saddleForm).1._xyscale = saddle._xyscale ∧
    (getPrefs Binary64 saddleForm).1._zscale = saddle._zscale ∧
    (getPrefs Binary64 saddleForm).1.lowest = saddle.lowest ∧
    (getPrefs Binary64 saddleForm).1.highest = saddle.highest) ∧
    (∀ i j : Nat, i ≤ 100 → j ≤ 100 → finiteAt Binary64 saddle i j) ∧
    (polygons Binary64 saddle).length = 10000 ∧
    draw Binary64 saddle = [svgOpen saddle] ++ polygons Binary64 saddle ++ [go "</svg>"] ∧
    svgOpen saddle = go ("<svg xmlns=\x27http://www.w3.org/2000/svg\x27 " ++
      "style=\x27stroke: none; fill: none; stroke-width: 0.7\x27 " ++
      "width=\x27600\x27 height=\x27320\x27>") :=
  ⟨saddle_getPrefs,
    fun i j hi hj => saddle_finiteAt i j (Nat.lt_succ_of_le hi) (Nat.lt_succ_of_le hj),
    polygons_length Binary64 saddle 100 10000 saddle_cells (by decide) saddle_invalidCells,
    draw_eq Binary64 saddle, saddle_svgOpen⟩

/-! ## Theorems: the sinc at the origin -/

namespace F64

theorem ilog2_one : ilog2 1 = 0 := by decide!

theorem rnd_half : rnd (1 / 2) = fin (1 / 2) := by decide!

theorem sub_half : sub (fin (1 / 2)) (rnd (1 / 2)) = zero false := by decide!

/-- A positive integer below `2 ^ 63` rounds to a positive finite value. -/
theorem rnd_nat_pos (n : Nat) (h1 : 1 ≤ n) (h2 : n < 2 ^ 63) :
    rnd (n : ℚ) = fin (rmag n) ∧ 0 < rmag (n : ℚ) := by
  have hq1 : (1 : ℚ) ≤ (n : ℚ) := by exact_mod_cast h1
  have hq : (0 : ℚ) < (n : ℚ) := lt_of_lt_of_le one_pos hq1
  have hlog : -1022 ≤ ilog2 (n : ℚ) := by
    have := ilog2_mono 1 n one_pos hq1
    rw [ilog2_one] at this
    omega
  have hpos : 0 < rmag (n : ℚ) := lt_of_lt_of_le (pow2_pos _) (pow2_le_rmag _ hq hlog)
  have hlt : (n : ℚ) < pow2 (62 + 1) := by
    have h63 : pow2 (62 + 1) = ((2 ^ 63 : Nat) : ℚ) := by
      rw [pow2_eq]; norm_num
    rw [h63]
    exact_mod_cast h2
  have hE : expo (n : ℚ) ≤ 62 := expo_le_of_lt _ hq 62 (by norm_num) hlt
  have hle : rmag (n : ℚ) ≤ pow2 63 :=
    (rmag_le_pow2 _ hq).trans ((pow2_le _ _).mpr (by omega))
  have hov : ¬ pow2 1024 ≤ rmag |(n : ℚ)| := by
    rw [abs_of_pos hq]
    intro h
    have := (pow2_le _ _).mp (h.trans hle)
    omega
  refine ⟨?_, hpos⟩
  rw [rnd_eq _ hq.ne.symm, if_neg hov, abs_of_pos hq, if_neg hpos.ne.symm, if_neg (not_lt.mpr hq.le)]

/-- The quotient `float64(n) / float64(2 * n)` is exactly one half. -/
theorem div_double (n : Nat) (h1 : 1 ≤ n) (h2 : 2 * n < 2 ^ 63) :
    div (rnd (n : ℚ)) (rnd ((2 * n : Nat) : ℚ)) = fin (1 / 2) := by
  have hq1 : (1 : ℚ) ≤ (n : ℚ) := by exact_mod_cast h1
  have hq : (0 : ℚ) < (n : ℚ) := lt_of_lt_of_le one_pos hq1
  have hlog : -1022 ≤ ilog2 (n : ℚ) := by
    have := ilog2_mono 1 n one_pos hq1
    rw [ilog2_one] at this
    omega
  obtain ⟨e1, p1⟩ := rnd_nat_pos n h1 (by omega)
  obtain ⟨e2, -⟩ := rnd_nat_pos (2 * n) (by omega) h2
  rw [e1, e2, Nat.cast_mul, Nat.cast_ofNat, rmag_double _ hq hlog]
  have : div (fin (rmag n)) (fin (2 * rmag (n : ℚ))) = rnd (rmag n / (2 * rmag (n : ℚ))) := rfl
  rw [this]
  have hv : rmag (n : ℚ) / (2 * rmag (n : ℚ)) = 1 / 2 := by
    field_simp
    ring
  rw [hv, rnd_half]

/-- A product with `+0` is NaN or a zero. -/
theorem mul_zero_cases (x : F64) : mul x (zero false) = nan ∨ ∃ s, mul x (zero false) = zero s := by
  cases x with
  | nan => exact Or.inl rfl
  | inf s => exact Or.inl rfl
  | zero s => exact Or.inr ⟨_, rfl⟩
  | fin q => exact Or.inr ⟨_, rfl⟩

end F64

theorem f3_nan : f3 Binary64 .nan .nan = .nan := by decide!

theorem f3_zero : ∀ s : Bool, f3 Binary64 (.zero s) (.zero s) = .nan := by decide!

/-- The grid index `cells / 2` of an even `cells` from 2 to the largest `int`
has the coordinate NaN (when `xyrange` is NaN or infinite) or zero. -/
theorem coord_middle (p : prefs F64) (h2 : 2 ≤ p.cells) (heven : p.cells % 2 = 0)
    (hmax : p.cells < 2 ^ 63) :
    Binary64.sub (Binary64.div (Binary64.ofInt (p.cells / 2)) (Binary64.ofInt p.cells))
      (Binary64.ofRat (1 / 2)) = .zero false ∧
    (coord Binary64 p (p.cells / 2) = .nan ∨ ∃ s, coord Binary64 p (p.cells / 2) = .zero s) := by
  obtain ⟨n, hn⟩ := Int.eq_ofNat_of_zero_le (show (0 : Int) ≤ p.cells / 2 by omega)
  have hc : p.cells = ((2 * n : Nat) : Int) := by push_cast; omega
  have h1 : 1 ≤ n := by omega
  have hlt : 2 * n < 2 ^ 63 := by omega
  have hd := F64.div_double n h1 hlt
  have key : Binary64.sub (Binary64.div (Binary64.ofInt (p.cells / 2)) (Binary64.ofInt p.cells))
      (Binary64.ofRat (1 / 2)) = .zero false := by
    rw [hn, hc]
    show F64.sub (F64.div (F64.rnd (((n : Nat) : Int) : ℚ)) (F64.rnd ((((2 * n : Nat) : Int)) : ℚ)))
      (F64.rnd (1 / 2)) = .zero false
    rw [Int.cast_natCast, Int.cast_natCast, hd]
    exact F64.sub_half
  refine ⟨key, ?_⟩
  unfold coord
  rw [key]
  exact F64.mul_zero_cases p.xyrange

theorem polygon_none {F : Type} (M : Lib F) (p : prefs F) (i j : Int)
    (h : ¬ cellFinite M p i j) : polygon M p i j = none := by
  have hs := polygon_isSome M p i j
  cases hp : polygon M p i j with
  | none => rfl
  | some r =>
    rw [hp] at hs
    exact absurd (hs.mp rfl) h

theorem middle_not_finite (p : prefs F64) (hf : p.f = f3 Binary64) (h2 : 2 ≤ p.cells)
    (heven : p.cells % 2 = 0) (hmax : p.cells < 2 ^ 63) :
    ¬ finiteAt Binary64 p (p.cells / 2) (p.cells / 2) := by
  unfold finiteAt
  rw [hf]
  rcases (coord_middle p h2 heven hmax).2 with h | ⟨s, h⟩
  · rw [h, f3_nan]; decide
  · rw [h, f3_zero]; decide

/-- Claim C11: for the surface `f3` (sinc) and every even `cells` from 2 to
the largest `int`, in binary64 arithmetic and for every `xyrange`: at grid
index `cells / 2` the factor `i/cells - 0.5` is exactly zero, `corner` reports
the vertex (cells/2, cells/2) as invalid, and the loop body of `draw` writes
no polygon for the four cells (cells/2-1, cells/2-1), (cells/2-1, cells/2),
(cells/2, cells/2-1) and (cells/2, cells/2) that touch it. -/
theorem C11_sinc_origin (p : prefs F64) (hf : p.f = f3 Binary64) (h2 : 2 ≤ p.cells)
    (heven : p.cells % 2 = 0) (hmax : p.cells < 2 ^ 63) :
    Binary64.sub (Binary64.div (Binary64.ofInt (p.cells / 2)) (Binary64.ofInt p.cells))
      (Binary64.ofRat (1 / 2)) = .zero false ∧
    (corner Binary64 (p.cells / 2) (p.cells / 2) p).2.2.2 = false ∧
    polygon Binary64 p (p.cells / 2 - 1) (p.cells / 2 - 1) = none ∧
    polygon Binary64 p (p.cells / 2 - 1) (p.cells / 2) = none ∧
    polygon Binary64 p (p.cells / 2) (p.cells / 2 - 1) = none ∧
    polygon Binary64 p (p.cells / 2) (p.cells / 2) = none := by
  have hm := middle_not_finite p hf h2 heven hmax
  have hc := corner_ok Binary64 p (p.cells / 2) (p.cells / 2)
  refine ⟨(coord_middle p h2 heven hmax).1, ?_, ?_, ?_, ?_, ?_⟩
  · cases hb : (corner Binary64 (p.cells / 2) (p.cells / 2) p).2.2.2 with
    | false => rfl
    | true => exact absurd (hc.mp hb) hm
  · apply polygon_none
    intro h
    have h4 := h.2.2.2
    rw [sub_add_cancel] at h4
    exact hm h4
  · apply polygon_none
    intro h
    have h4 := h.2.1
    rw [sub_add_cancel] at h4
    exact hm h4
  · apply polygon_none
    intro h
    have h4 := h.2.2.1
    rw [sub_add_cancel] at h4
    exact hm h4
  · apply polygon_none
    intro h
    exact hm h.1

/-- Witness of C11 at the default prefs with the surface `f3` (100 cells):
no polygon for the cell (50, 50). -/
theorem C11_witness :
    sinc.f = f3 Binary64 ∧ (2 : Int) ≤ sinc.cells ∧ sinc.cells % 2 = 0 ∧ sinc.cells < 2 ^ 63 ∧
    polygon Binary64 sinc (sinc.cells / 2) (sinc.cells / 2) = none :=
  ⟨rfl, by decide, by decide, by decide,
    (C11_sinc_origin sinc rfl (by decide) (by decide) (by decide)).2.2.2.2.2⟩

end Surface
